import Mathlib

/-!
Shallow embedding of the reconciliation engine of the `taxonomy_tool`
repository (sources under `src/`): `merge_logic.py`, `mapping_engine.py`,
`user_stage2.py` and `cleansing.py`, together with proofs checking the
natural-language specification's claims against it.

Python values flowing through the engine (scalars, lists, dicts) are
modelled by the inductive type `Val`; Python dicts are association lists
with first-key lookup and in-place update; pandas DataFrames are modelled
by `Table` (a row count plus ordered named columns).  Machine floats are
restricted to the one float the code distinguishes (`NaN`); general float
literals do not occur in the claims under check and the JSON parser below
rejects them (a documented restriction of the model).
-/

set_option autoImplicit false

/-- A Python value as handled by the reconciliation engine: `None`, a bool,
an int (Python `str(int)` is modelled exactly by `intRepr` below), the float
`NaN`, a string, a list, or a string-keyed dict. -/
inductive Val where
  | none
  | bool (b : Bool)
  | num (n : Int)
  | nan
  | str (s : String)
  | list (xs : List Val)
  | dict (kvs : List (String × Val))

/-- The characters Python's `str.strip()` removes. -/
def pySpace (c : Char) : Bool :=
  c == ' ' || c == '\t' || c == '\n' || c == '\r' || c == '\x0b' || c == '\x0c'

/-- Generic both-ends strip on a character predicate (Python `str.strip`). -/
def stripWith (p : Char → Bool) (s : String) : String :=
  String.mk (((s.toList.dropWhile p).reverse.dropWhile p).reverse)

/-- Python `str.strip()` (whitespace). -/
def pyStrip (s : String) : String :=
  stripWith pySpace s

/-- ASCII lower-casing of one character (Python `str.lower` restricted to
the ASCII range, which is all the engine's comparisons use). -/
def lowerChar (c : Char) : Char :=
  if 'A' ≤ c && c ≤ 'Z' then Char.ofNat (c.toNat + 32) else c

/-- Python `str.lower()` (ASCII-faithful). -/
def pyLower (s : String) : String :=
  String.mk (s.toList.map lowerChar)

/-- Decimal digit character. -/
def digitChar (n : Nat) : Char :=
  Char.ofNat (48 + n)

/-- Fuelled decimal printer for naturals (most significant digit first). -/
def natReprAux : Nat → Nat → List Char → List Char
  | 0, _, acc => acc
  | fuel + 1, n, acc =>
      if n < 10 then digitChar n :: acc
      else natReprAux fuel (n / 10) (digitChar (n % 10) :: acc)

/-- Decimal representation of a natural, as Python's `str` prints it. -/
def natRepr (n : Nat) : String :=
  String.mk (natReprAux (n + 1) n [])

/-- Decimal representation of an integer, as Python's `str` prints it. -/
def intRepr (i : Int) : String :=
  if i < 0 then "-" ++ natRepr (-i).toNat else natRepr i.toNat

mutual

/-- Python `repr` for the modelled values (used by `str()` on containers).
Strings are rendered single-quoted; this matches Python on quote-free
strings, which is the only place container `repr` could surface in the
modelled code. -/
def pyRepr : Val → String
  | .none => "None"
  | .bool b => if b then "True" else "False"
  | .num n => intRepr n
  | .nan => "nan"
  | .str s => "'" ++ s ++ "'"
  | .list xs => "[" ++ pyReprList xs ++ "]"
  | .dict kvs => "\x7b" ++ pyReprDict kvs ++ "\x7d"

/-- Comma-separated `repr` of list elements. -/
def pyReprList : List Val → String
  | [] => ""
  | [x] => pyRepr x
  | x :: y :: xs => pyRepr x ++ ", " ++ pyReprList (y :: xs)

/-- Comma-separated `repr` of dict items. -/
def pyReprDict : List (String × Val) → String
  | [] => ""
  | [(k, v)] => "'" ++ k ++ "': " ++ pyRepr v
  | (k, v) :: y :: xs => "'" ++ k ++ "': " ++ pyRepr v ++ ", " ++ pyReprDict (y :: xs)

end

/-- Python `str()` on a modelled value. -/
def pyStr : Val → String
  | .none => "None"
  | .bool b => if b then "True" else "False"
  | .num n => intRepr n
  | .nan => "nan"
  | .str s => s
  | .list xs => pyRepr (.list xs)
  | .dict kvs => pyRepr (.dict kvs)

/-- Python truthiness of a modelled value. -/
def pyTruthy : Val → Bool
  | .none => false
  | .bool b => b
  | .num n => n != 0
  | .nan => true
  | .str s => s != ""
  | .list xs => !xs.isEmpty
  | .dict kvs => !kvs.isEmpty

/-- A Python dict of string keys, in insertion order. -/
abbrev Row := List (String × Val)

/-- Python `d.get(k)` / `d[k]`: value at the first matching key. -/
def pyGet (r : Row) (k : String) : Option Val :=
  match r with
  | [] => Option.none
  | kv :: rest => if kv.1 = k then some kv.2 else pyGet rest k

/-- Python `d.get(k, default)`. -/
def pyGetD (r : Row) (k : String) (d : Val) : Val :=
  (pyGet r k).getD d

/-- Python `d[k] = v`: update the existing key in place, else append. -/
def pySet (r : Row) (k : String) (v : Val) : Row :=
  match r with
  | [] => [(k, v)]
  | kv :: rest => if kv.1 = k then (k, v) :: rest else kv :: pySet rest k v

/-- Lift an optional string back into a value (`None` or the string). -/
def optVal : Option String → Val
  | Option.none => Val.none
  | some s => Val.str s

namespace merge_logic

/-- `merge_logic._is_missing`: treat `None` / empty / NaN / `'nan'` /
`'none'` / `'null'` (after strip+lower) as missing. -/
def is_missing : Val → Bool
  | .none => true
  | .nan => true
  | .str s =>
      let t := pyLower (pyStrip s)
      t == "" || t == "nan" || t == "none" || t == "null"
  | _ => false

/-- `merge_logic._safe_str`: `None` for missing values, else `str(v)`. -/
def safe_str (v : Val) : Option String :=
  if is_missing v then Option.none else some (pyStr v)

mutual

/-- `merge_logic._clean_for_json`: recursively replace missing scalars by
`None`, keeping dict/list structure. -/
def clean_for_json : Val → Val
  | .dict kvs => .dict (cleanKVs kvs)
  | .list xs => .list (cleanList xs)
  | .none => .none
  | .nan => .none
  | .bool b => .bool b
  | .num n => .num n
  | .str s => if is_missing (.str s) then .none else .str s

/-- `_clean_for_json` mapped over a list. -/
def cleanList : List Val → List Val
  | [] => []
  | x :: xs => clean_for_json x :: cleanList xs

/-- `_clean_for_json` mapped over dict items. -/
def cleanKVs : List (String × Val) → List (String × Val)
  | [] => []
  | (k, v) :: xs => (k, clean_for_json v) :: cleanKVs xs

end

end merge_logic

example : merge_logic.is_missing (Val.str " NaN ") = true := by rfl
example : merge_logic.is_missing (Val.str "0") = false := by rfl
example : merge_logic.safe_str (Val.num 17) = some "17" := by rfl
example : merge_logic.safe_str (Val.num (-3)) = some "-3" := by rfl
example : pyGet [("a", Val.num 1), ("b", Val.none)] "b" = some Val.none := by rfl
example : pySet [("a", Val.num 1)] "a" Val.nan = [("a", Val.nan)] := by rfl

/-! ### JSON serialization (`json.dumps` with default separators, `ensure_ascii=False`) -/

/-- Opening brace character (written numerically). -/
def obrace : Char := Char.ofNat 123

/-- Closing brace character (written numerically). -/
def cbrace : Char := Char.ofNat 125

/-- Lower-case hex digit. -/
def hexDigit (n : Nat) : Char :=
  if n < 10 then Char.ofNat (48 + n) else Char.ofNat (87 + n)

/-- Four-digit hex rendering used by `json.dumps` for control characters. -/
def hex4 (n : Nat) : String :=
  String.mk [hexDigit (n / 4096 % 16), hexDigit (n / 256 % 16),
             hexDigit (n / 16 % 16), hexDigit (n % 16)]

/-- `json.dumps` escaping of one character (`ensure_ascii=False`). -/
def jsonEscapeChar (c : Char) : List Char :=
  if c == '"' then ['\\', '"']
  else if c == '\\' then ['\\', '\\']
  else if c == '\n' then ['\\', 'n']
  else if c == '\t' then ['\\', 't']
  else if c == '\r' then ['\\', 'r']
  else if c == '\x08' then ['\\', 'b']
  else if c == '\x0c' then ['\\', 'f']
  else if c.toNat < 32 then '\\' :: 'u' :: (hex4 c.toNat).toList
  else [c]

/-- `json.dumps` rendering of a string (without the python-side `str()`). -/
def jsonEscape (s : String) : String :=
  String.mk (s.toList.flatMap jsonEscapeChar)

mutual

/-- `json.dumps(v, ensure_ascii=False)` on a modelled value.  Python dumps
the float `nan` as the (non-standard) literal `NaN`. -/
def dumps : Val → String
  | .none => "null"
  | .bool b => if b then "true" else "false"
  | .num n => intRepr n
  | .nan => "NaN"
  | .str s => "\"" ++ jsonEscape s ++ "\""
  | .list xs => "[" ++ dumpsList xs ++ "]"
  | .dict kvs => "\x7b" ++ dumpsDict kvs ++ "\x7d"

/-- Comma-separated dump of array elements (separator `", "`). -/
def dumpsList : List Val → String
  | [] => ""
  | [x] => dumps x
  | x :: y :: xs => dumps x ++ ", " ++ dumpsList (y :: xs)

/-- Comma-separated dump of object items (separators `", "` and `": "`). -/
def dumpsDict : List (String × Val) → String
  | [] => ""
  | [(k, v)] => "\"" ++ jsonEscape k ++ "\": " ++ dumps v
  | (k, v) :: y :: xs =>
      "\"" ++ jsonEscape k ++ "\": " ++ dumps v ++ ", " ++ dumpsDict (y :: xs)

end

/-! ### JSON parsing (`json.loads`)

A fuelled recursive-descent parser.  It accepts standard JSON (with the
Python extension literal `NaN`) except that non-integer number literals
(fractions, exponents, `Infinity`) are rejected; such literals never occur
in the provenance strings the engine itself produces, so this restriction
does not affect the claims under check. -/

/-- JSON insignificant whitespace. -/
def jsonWsChar (c : Char) : Bool :=
  c == ' ' || c == '\t' || c == '\n' || c == '\r'

/-- Skip insignificant whitespace. -/
def skipWs (cs : List Char) : List Char :=
  cs.dropWhile jsonWsChar

/-- Value of one hex digit. -/
def hexVal (c : Char) : Option Nat :=
  if '0' ≤ c && c ≤ '9' then some (c.toNat - 48)
  else if 'a' ≤ c && c ≤ 'f' then some (c.toNat - 87)
  else if 'A' ≤ c && c ≤ 'F' then some (c.toNat - 55)
  else Option.none

/-- Decimal digit test. -/
def isDigitCh (c : Char) : Bool :=
  '0' ≤ c && c ≤ '9'

/-- Parse a JSON string body (after the opening quote); unescapes the
standard escapes, rejects raw control characters and lone surrogates. -/
def parseStrBody : Nat → List Char → List Char → Option (String × List Char)
  | 0, _, _ => Option.none
  | fuel + 1, acc, cs =>
    match cs with
    | [] => Option.none
    | c :: rest =>
      if c == '"' then some (String.mk acc.reverse, rest)
      else if c == '\\' then
        match rest with
        | [] => Option.none
        | e :: rest2 =>
          if e == '"' then parseStrBody fuel ('"' :: acc) rest2
          else if e == '\\' then parseStrBody fuel ('\\' :: acc) rest2
          else if e == '/' then parseStrBody fuel ('/' :: acc) rest2
          else if e == 'b' then parseStrBody fuel ('\x08' :: acc) rest2
          else if e == 'f' then parseStrBody fuel ('\x0c' :: acc) rest2
          else if e == 'n' then parseStrBody fuel ('\n' :: acc) rest2
          else if e == 'r' then parseStrBody fuel ('\r' :: acc) rest2
          else if e == 't' then parseStrBody fuel ('\t' :: acc) rest2
          else if e == 'u' then
            match rest2 with
            | h1 :: h2 :: h3 :: h4 :: rest3 =>
              match hexVal h1, hexVal h2, hexVal h3, hexVal h4 with
              | some a, some b, some c2, some d =>
                let n := ((a * 16 + b) * 16 + c2) * 16 + d
                if 55296 ≤ n && n ≤ 57343 then Option.none
                else parseStrBody fuel (Char.ofNat n :: acc) rest3
              | _, _, _, _ => Option.none
            | _ => Option.none
          else Option.none
      else if c.toNat < 32 then Option.none
      else parseStrBody fuel (c :: acc) rest

/-- Parse a JSON integer literal (rejecting fraction/exponent forms, which
the model does not represent). -/
def parseIntTok (cs : List Char) : Option (Int × List Char) :=
  let neg := match cs with
    | '-' :: _ => true
    | _ => false
  let cs1 := if neg then cs.drop 1 else cs
  let ds := cs1.takeWhile isDigitCh
  let rest := cs1.drop ds.length
  if ds.isEmpty then Option.none
  else
    match ds with
    | '0' :: _ :: _ => Option.none
    | _ =>
      let bad := match rest with
        | c :: _ => c == '.' || c == 'e' || c == 'E'
        | [] => false
      if bad then Option.none
      else
        let m : Int := Int.ofNat (ds.foldl (fun a c => a * 10 + (c.toNat - 48)) 0)
        some (if neg then -m else m, rest)

mutual

/-- Parse one JSON value (fuelled). -/
def parseVal : Nat → List Char → Option (Val × List Char)
  | 0, _ => Option.none
  | fuel + 1, cs =>
    match skipWs cs with
    | [] => Option.none
    | c :: rest =>
      if c == '"' then
        match parseStrBody (rest.length + 1) [] rest with
        | some (s, r) => some (Val.str s, r)
        | Option.none => Option.none
      else if c == '[' then
        match skipWs rest with
        | ']' :: r2 => some (Val.list [], r2)
        | r2 => match parseArrItems fuel r2 with
                | some (xs, r3) => some (Val.list xs, r3)
                | Option.none => Option.none
      else if c == obrace then
        match skipWs rest with
        | d :: r2 =>
          if d == cbrace then some (Val.dict [], r2)
          else
            (match parseObjItems fuel (d :: r2) with
             | some (kvs, r3) => some (Val.dict kvs, r3)
             | Option.none => Option.none)
        | [] => Option.none
      else if c == 'n' then
        match rest with
        | 'u' :: 'l' :: 'l' :: r2 => some (Val.none, r2)
        | _ => Option.none
      else if c == 't' then
        match rest with
        | 'r' :: 'u' :: 'e' :: r2 => some (Val.bool true, r2)
        | _ => Option.none
      else if c == 'f' then
        match rest with
        | 'a' :: 'l' :: 's' :: 'e' :: r2 => some (Val.bool false, r2)
        | _ => Option.none
      else if c == 'N' then
        match rest with
        | 'a' :: 'N' :: r2 => some (Val.nan, r2)
        | _ => Option.none
      else
        match parseIntTok (c :: rest) with
        | some (n, r2) => some (Val.num n, r2)
        | Option.none => Option.none

/-- Parse the remaining items of a non-empty JSON array (fuelled). -/
def parseArrItems : Nat → List Char → Option (List Val × List Char)
  | 0, _ => Option.none
  | fuel + 1, cs =>
    match parseVal fuel cs with
    | Option.none => Option.none
    | some (v, r1) =>
      match skipWs r1 with
      | ',' :: r2 =>
          (match parseArrItems fuel r2 with
           | some (xs, r3) => some (v :: xs, r3)
           | Option.none => Option.none)
      | ']' :: r2 => some ([v], r2)
      | _ => Option.none

/-- Parse the remaining items of a non-empty JSON object (fuelled). -/
def parseObjItems : Nat → List Char → Option (List (String × Val) × List Char)
  | 0, _ => Option.none
  | fuel + 1, cs =>
    match skipWs cs with
    | '"' :: r1 =>
      (match parseStrBody (r1.length + 1) [] r1 with
       | Option.none => Option.none
       | some (k, r2) =>
         match skipWs r2 with
         | ':' :: r3 =>
           (match parseVal fuel r3 with
            | Option.none => Option.none
            | some (v, r4) =>
              match skipWs r4 with
              | ',' :: r5 =>
                  (match parseObjItems fuel r5 with
                   | some (kvs, r6) => some ((k, v) :: kvs, r6)
                   | Option.none => Option.none)
              | d :: r5 => if d == cbrace then some ([(k, v)], r5) else Option.none
              | [] => Option.none)
         | _ => Option.none)
    | _ => Option.none

end

/-- `json.loads`: parse a complete JSON document from a string. -/
def loads (s : String) : Option Val :=
  match parseVal (s.toList.length + 1) s.toList with
  | some (v, rest) => if (skipWs rest).isEmpty then some v else Option.none
  | Option.none => Option.none

example : loads "[]" = some (Val.list []) := by rfl
example : loads "null" = some Val.none := by rfl
example : loads "not json" = Option.none := by rfl
example : loads "nan" = Option.none := by rfl
example :
    loads "[-3, \"a b\", \x7b\"k\": null\x7d]" =
      some (Val.list [Val.num (-3), Val.str "a b", Val.dict [("k", Val.none)]]) := by rfl
example :
    dumps (Val.list [Val.dict [("source_system", Val.str "sap"), ("source_file", Val.none)]]) =
      "[\x7b\"source_system\": \"sap\", \"source_file\": null\x7d]" := by rfl
example :
    loads (dumps (Val.list [Val.dict [("a", Val.str "x\"y"), ("b", Val.num 0)]])) =
      some (Val.list [Val.dict [("a", Val.str "x\"y"), ("b", Val.num 0)]]) := by rfl

namespace merge_logic

/-- The provenance entry a Stage-1 row contributes:
`{"source_system": _safe_str(...), "source_file": _safe_str(...)}`. -/
def stage1Entry (r : Row) : Row :=
  [("source_system", optVal (safe_str (pyGetD r "source_system" Val.none))),
   ("source_file", optVal (safe_str (pyGetD r "source_file" Val.none)))]

/-- The Stage-1 field-overwrite loop over one row's items: skip `sources`
and missing values, write everything else. -/
def stage1Items (r m : Row) : Row :=
  r.foldl
    (fun m kv =>
      if kv.1 = "sources" then m
      else if is_missing kv.2 then m
      else pySet m kv.1 kv.2)
    m

/-- One Stage-1 accumulation step over a row: extend the provenance list
when the row names a source, then overwrite every non-missing field
(`sources` excepted). -/
def stage1Step (acc : Row × List Val) (r : Row) : Row × List Val :=
  let src := stage1Entry r
  let sources :=
    if pyTruthy (pyGetD src "source_system" Val.none) ||
       pyTruthy (pyGetD src "source_file" Val.none) then
      acc.2 ++ [Val.dict src]
    else acc.2
  (stage1Items r acc.1, sources)

/-- `merge_logic.merge_records_by_part_number`: Stage-1 merge of all rows of
one part number — later rows override earlier ones field by field, and
`sources` collects `{source_system, source_file}` for each row naming
either. -/
def merge_records_by_part_number (rows : List Row) : Row :=
  let acc := rows.foldl stage1Step ([], [])
  pySet acc.1 "sources" (Val.str (dumps (clean_for_json (Val.list acc.2))))

/-- `merge_logic.DB_COLUMNS`: the full part_master schema except `id`. -/
def DB_COLUMNS : List String :=
  ["part_number", "updated_at", "stock_qty", "vendor_code", "abc_class",
   "commodity_code", "utilization_score", "material_group", "risk_rating",
   "cost", "purchase_uom", "notes", "description_clean", "drawing_no",
   "is_standard_part", "order_uom", "spec_grade", "spec_finish", "material",
   "dimensions", "last_modified", "description", "category_master",
   "analysis_comment", "created_date", "plant", "currency", "flag",
   "checkout_status", "remarks", "approval_status", "revision_no",
   "material_type", "avg_lead_time_days", "spec_weight", "no", "cad_type",
   "storage_location", "quantity", "criticality_index", "category_raw",
   "engineer_name", "active_flag", "file_size_mb", "valuation_type",
   "spec_tolerance", "movement_frequency", "order_date", "delivery_date",
   "pdf_page", "date", "due_date", "file_name", "sources",
   "lifecycle_state", "vendor_name", "cad_file", "source_system",
   "source_file"]

/-- `merge_logic._parse_sources_json`: decode an existing `sources` value —
missing becomes `[]`, a structured list is kept (cleaned), a string is
JSON-decoded (a decoded non-list is wrapped; an undecodable string becomes
the single entry `{"raw": s}`), anything else is wrapped cleaned. -/
def parse_sources_json (s : Val) : List Val :=
  if is_missing s then []
  else
    match s with
    | .list xs => cleanList xs
    | .str strv =>
      (match loads strv with
       | some (.list xs) => cleanList xs
       | some v => [clean_for_json v]
       | Option.none => [Val.dict [("raw", Val.str strv)]])
    | v => [clean_for_json v]

/-- Overlay of one row onto an accumulator, restricted to the schema
columns: copy each non-missing value (the loop bodies of steps 1 and 2 of
`merge_db_with_user`). -/
def overlayCols (cols : List String) (r : Row) (m : Row) : Row :=
  cols.foldl
    (fun m col =>
      match pyGet r col with
      | some v => if is_missing v then m else pySet m col v
      | Option.none => m)
    m

/-- The provenance entry appended per user row in `merge_db_with_user`
(`source_system` defaults to `"user_upload"` only when the key is absent). -/
def userEntry (r : Row) : Val :=
  Val.dict
    [("source_system", optVal (safe_str (pyGetD r "source_system" (Val.str "user_upload")))),
     ("source_file", optVal (safe_str (pyGetD r "source_file" Val.none)))]

/-- Step 3 of `merge_db_with_user`:
`user_rows[-1].get("part_number") or (db_row or {}).get("part_number")` —
Python `or` falls through on *falsy* (not on missing) values. -/
def pnChoice (db_row : Option Row) (lastRow : Row) : Val :=
  if pyTruthy (pyGetD lastRow "part_number" Val.none) then
    pyGetD lastRow "part_number" Val.none
  else pyGetD (db_row.getD []) "part_number" Val.none

/-- The record produced after steps 1–2 of `merge_db_with_user`: the
all-`None` schema skeleton, overlaid with the DB row (`if db_row:` — an
empty dict is skipped by Python's truthiness, and the overlay over an
empty dict is a no-op, so the plain `match` is extensionally faithful)
and then with each user row, later rows winning. -/
def mergeOverlay (db_row : Option Row) (user_rows : List Row) : Row :=
  user_rows.foldl (fun m r => overlayCols DB_COLUMNS r m)
    (match db_row with
     | some db => overlayCols DB_COLUMNS db (DB_COLUMNS.map (fun c => (c, Val.none)))
     | Option.none => DB_COLUMNS.map (fun c => (c, Val.none)))

/-- The Stage-2 `sources` value (step 4 of `merge_db_with_user`): decoded
DB provenance plus one `userEntry` per user row, cleaned and dumped. -/
def mergeSources (db_row : Option Row) (user_rows : List Row) : Val :=
  Val.str (dumps (clean_for_json (Val.list
    (parse_sources_json (pyGetD (db_row.getD []) "sources" Val.none)
      ++ user_rows.map userEntry))))

/-- The body of `merge_db_with_user` once `user_rows[-1]` is known. -/
def mergeCore (db_row : Option Row) (user_rows : List Row) (lastRow : Row) : Row :=
  pySet
    (pySet (mergeOverlay db_row user_rows)
      "part_number" (optVal (safe_str (pnChoice db_row lastRow))))
    "sources" (mergeSources db_row user_rows)

/-- `merge_logic.merge_db_with_user`: Stage-2 merge of an optional DB row
with the user rows; `user_rows[-1]` raises `IndexError` on an empty list,
so the empty case is modelled as `none`. -/
def merge_db_with_user (db_row : Option Row) (user_rows : List Row) : Option Row :=
  match user_rows.getLast? with
  | Option.none => Option.none
  | some lastRow => some (mergeCore db_row user_rows lastRow)

end merge_logic

namespace mapping_engine

/-- `mapping_engine._val`: `None` for null/NaN, else `str(v).strip()`, with
empty and the `nan`/`null`/`none` sentinels (case-insensitive) as `None`. -/
def val (v : Val) : Option String :=
  match v with
  | .none => Option.none
  | .nan => Option.none
  | _ =>
    let s := pyStrip (pyStr v)
    if s == "" || pyLower s == "nan" || pyLower s == "null" || pyLower s == "none" then
      Option.none
    else some s

/-- `mapping_engine.PRIORITY`: source priority, later = higher. -/
def PRIORITY : List String :=
  ["powerbi", "vault", "sap", "pos", "invoices", "user_upload"]

/-- `mapping_engine.FIELD_MAP`: canonical field → ordered raw key aliases. -/
def FIELD_MAP : List (String × List String) :=
  [("description",
    ["description", "sap_description_raw", "sap_description_clean",
     "vault_description", "powerbi_description", "invoice_description_raw",
     "po_description_raw", "description_raw", "user_description"]),
   ("material",
    ["material", "sap_material", "sap_spec_material", "vault_material",
     "powerbi_material", "spec_material", "user_material"]),
   ("dimensions",
    ["dimensions", "sap_spec_dimensions", "vault_dimensions", "user_dimensions"]),
   ("category_raw",
    ["category_raw", "sap_category", "powerbi_category", "vault_category",
     "sub_category", "user_category"]),
   ("cost",
    ["cost", "sap_price_per_uom", "price_per_unom", "invoice_unit_price",
     "po_price_per_unit"]),
   ("currency",
    ["currency", "sap_currency", "invoice_currency", "po_currency"]),
   ("vendor_name",
    ["vendor_name", "sap_vendor_name", "invoice_vendor_name", "po_vendor_name"])]

/-- First-key lookup in an association list of field aliases. -/
def fmLookup (m : List (String × List String)) (k : String) : Option (List String) :=
  match m with
  | [] => Option.none
  | kv :: rest => if kv.1 = k then some kv.2 else fmLookup rest k

/-- Scan a row's aliases in order for the first value `_val` accepts (the
inner `for k in keys` loop of `resolve_field`). -/
def firstKeyVal (keys : List String) (r : Row) : Option String :=
  match keys with
  | [] => Option.none
  | k :: ks =>
    match val (pyGetD r k Val.none) with
    | some s => some s
    | Option.none => firstKeyVal ks r

/-- `r.get("source_system") != src` — Python equality of the value with the
source-system string. -/
def rowIsFrom (r : Row) (src : String) : Bool :=
  match pyGetD r "source_system" Val.none with
  | .str s => s == src
  | _ => false

/-- `mapping_engine.resolve_field`: priority pass (highest-priority system
first), then an any-row fallback, else `None`.  The outer `Option` is the
`KeyError` on a field name absent from `FIELD_MAP`. -/
def resolve_field (fieldname : String) (rows : List Row) : Option (Option String) :=
  match fmLookup FIELD_MAP fieldname with
  | Option.none => Option.none
  | some keys =>
    let pass1 := PRIORITY.reverse.findSome?
      (fun src => rows.findSome?
        (fun r => if !rowIsFrom r src then Option.none else firstKeyVal keys r))
    match pass1 with
    | some v => some (some v)
    | Option.none =>
      match rows.findSome? (fun r => firstKeyVal keys r) with
      | some v => some (some v)
      | Option.none => some Option.none

end mapping_engine

namespace user_stage2

/-- The membership test `v not in [None, "", "nan", "NaN"]` of
`merge_db_and_user` (note: the float NaN is *not* caught by it, and there
is no strip/lower normalization here). -/
def skipValue : Val → Bool
  | .none => true
  | .str s => s == "" || s == "nan" || s == "NaN"
  | _ => false

/-- The provenance entry `merge_db_and_user` appends per user row
(`{"source": "user", "file": ..., "description": ...}`). -/
def stage2Entry (u : Row) : Val :=
  Val.dict
    [("source", Val.str "user"),
     ("file", pyGetD u "source_file" Val.none),
     ("description", pyGetD u "description" Val.none)]

/-- The user-row overlay loop of `merge_db_and_user`: every item of every
user row whose value is outside the sentinel list is written, later rows
winning. -/
def userOverlay (base : Row) (user_rows : List Row) : Row :=
  user_rows.foldl
    (fun b u => u.foldl
      (fun b kv => if skipValue kv.2 then b else pySet b kv.1 kv.2) b)
    base

/-- The `old_sources` recovery of `merge_db_and_user`: only a truthy
*string* that JSON-decodes to a list contributes; a decoded non-list, a
decode failure, and a non-string value (`json.loads` raises `TypeError`,
swallowed by the bare `except`) all degrade to `[]`. -/
def decodeOldSources (base : Row) : List Val :=
  match pyGet base "sources" with
  | some sv =>
    if pyTruthy sv then
      match sv with
      | .str s =>
        (match loads s with
         | some (.list xs) => xs
         | some _ => []
         | Option.none => [])
      | _ => []
    else []
  | Option.none => []

/-- `user_stage2.merge_db_and_user`: start from a copy of the full DB row
(or `{}`), overlay every user item whose value is outside the sentinel
list, then rebuild `sources` from the decoded current value plus one new
entry per user row. -/
def merge_db_and_user (db_row : Option Row) (user_rows : List Row) : Row :=
  let base := userOverlay
    (match db_row with
     | Option.none => []
     | some d => d)
    user_rows
  pySet base "sources"
    (Val.str (dumps (Val.list (decodeOldSources base ++ user_rows.map stage2Entry))))

end user_stage2

section SanityChecks

example :
    merge_logic.merge_records_by_part_number [] = [("sources", Val.str "[]")] := by rfl

example :
    merge_logic.merge_records_by_part_number
      [[("part_number", Val.str "A1"), ("cost", Val.str "5"),
        ("source_system", Val.str "sap"), ("source_file", Val.str "s.xlsx")],
       [("part_number", Val.str "A1"), ("cost", Val.str "nan"),
        ("material", Val.str "steel")]] =
      [("part_number", Val.str "A1"), ("cost", Val.str "5"),
       ("source_system", Val.str "sap"), ("source_file", Val.str "s.xlsx"),
       ("material", Val.str "steel"),
       ("sources",
        Val.str "[\x7b\"source_system\": \"sap\", \"source_file\": \"s.xlsx\"\x7d]")] := by
  rfl

example :
    mapping_engine.resolve_field "material"
      [[("source_system", Val.str "sap"), ("material", Val.str "steel")],
       [("source_system", Val.str "vault"), ("vault_material", Val.str "alu")]] =
      some (some "steel") := by rfl

example :
    mapping_engine.resolve_field "material"
      [[("source_system", Val.str "x"), ("material", Val.str " brass ")]] =
      some (some "brass") := by rfl

example : mapping_engine.resolve_field "material" [] = some Option.none := by rfl

example :
    user_stage2.merge_db_and_user
      (some [("part_number", Val.str "A1"), ("sources", Val.str "oops")])
      [[("source_file", Val.str "u.xlsx")]] =
      [("part_number", Val.str "A1"),
       ("sources",
        Val.str "[\x7b\"source\": \"user\", \"file\": \"u.xlsx\", \"description\": null\x7d]"),
       ("source_file", Val.str "u.xlsx")] := by rfl

end SanityChecks

/-! ### `cleansing.py`: pandas DataFrames modelled as ordered named columns -/

/-- A pandas DataFrame: a row count and ordered, named columns (each column
list having `nrows` entries in well-formed tables). -/
structure Table where
  nrows : Nat
  cols : List (String × List Val)

/-- Column names in order. -/
def Table.names (t : Table) : List String :=
  t.cols.map Prod.fst

/-- First-match association lookup (generic). -/
def alookup {α : Type} (l : List (String × α)) (k : String) : Option α :=
  match l with
  | [] => Option.none
  | kv :: rest => if kv.1 = k then some kv.2 else alookup rest k

/-- The values of a named column, if present. -/
def getCol (t : Table) (c : String) : Option (List Val) :=
  alookup t.cols c

/-- The values of a named column, defaulting to `[]`. -/
def getColD (t : Table) (c : String) : List Val :=
  (getCol t c).getD []

/-- `c in df.columns`. -/
def colExists (t : Table) (c : String) : Bool :=
  (getCol t c).isSome

/-- In-place update of an existing column, else append at the end (pandas
`df[c] = values`). -/
def setColList : List (String × List Val) → String → List Val → List (String × List Val)
  | [], c, vs => [(c, vs)]
  | kv :: rest, c, vs => if kv.1 = c then (c, vs) :: rest else kv :: setColList rest c vs

/-- `df[c] = values`. -/
def setColVals (t : Table) (c : String) (vs : List Val) : Table :=
  { t with cols := setColList t.cols c vs }

/-- `df[c] = None`: broadcast the scalar to a full column. -/
def setColScalarNone (t : Table) (c : String) : Table :=
  setColVals t c (List.replicate t.nrows Val.none)

/-- `df.rename(columns={a: b})`. -/
def renameCol (t : Table) (a b : String) : Table :=
  { t with cols := t.cols.map (fun kv => if kv.1 = a then (b, kv.2) else kv) }

/-- `df.drop(columns=[c])`. -/
def dropCol (t : Table) (c : String) : Table :=
  { t with cols := t.cols.filter (fun kv => !(kv.1 == c)) }

/-- The value of row `i` at column `c` (`row.get(c)`: `None` when the
column is absent). -/
def rowVal (t : Table) (c : String) (i : Nat) : Val :=
  match getCol t c with
  | some vs => vs.getD i Val.none
  | Option.none => Val.none

namespace cleansing

/-- `cleansing.PREFIXES`. -/
def PREFIXES : List String :=
  ["sap", "vault", "powerbi", "po", "invoice", "user"]

/-- Lower-case alphanumeric test (the complement of `[^a-z0-9]`). -/
def isLowerAlnum (c : Char) : Bool :=
  ('a' ≤ c && c ≤ 'z') || ('0' ≤ c && c ≤ '9')

/-- Fuelled worker for `collapseRun` (the fuel, at least the list length,
is never exhausted since every step consumes at least one character). -/
def collapseRunAux : Nat → List Char → List Char
  | _, [] => []
  | 0, _ :: _ => []
  | fuel + 1, c :: cs =>
    if isLowerAlnum c then c :: collapseRunAux fuel cs
    else '_' :: collapseRunAux fuel (cs.dropWhile (fun d => !isLowerAlnum d))

/-- `re.sub(r"[^a-z0-9]+", "_", s)`: collapse each maximal run of
non-alphanumerics to a single underscore. -/
def collapseRun (l : List Char) : List Char :=
  collapseRunAux l.length l

/-- List prefix test. -/
def startsWithL : List Char → List Char → Bool
  | [], _ => true
  | _ :: _, [] => false
  | p :: ps, c :: cs => p == c && startsWithL ps cs

/-- `cleansing._normalize_name`: strip+lower, collapse non-alphanumerics to
underscores, trim underscores, then strip at most one source-system
prefix (first match in `PREFIXES` order). -/
def normalize_name (name : String) : String :=
  let l := (pyStrip name).toList.map lowerChar
  let l := collapseRun l
  let l := (l.dropWhile (· == '_')).reverse.dropWhile (· == '_') |>.reverse
  match PREFIXES.find? (fun p => startsWithL (p.toList ++ ['_']) l) with
  | some p => String.mk (l.drop (p.length + 1))
  | Option.none => String.mk l

/-- `cleansing_config.COLUMN_SYNONYMS`. -/
def COLUMN_SYNONYMS : List (String × String) :=
  [("part_no", "part_number"), ("partno", "part_number"),
   ("material_code", "part_number"), ("material_no", "part_number"),
   ("mat_code", "part_number"), ("mat_no", "part_number"),
   ("description_raw", "description"), ("item_description", "description"),
   ("desc", "description"), ("long_description", "description"),
   ("short_description", "description"),
   ("spec_material", "material"), ("mat", "material"),
   ("spec_dimensions", "dimensions"), ("size", "dimensions"),
   ("vendor", "vendor_name"), ("vendorname", "vendor_name"),
   ("vendor_code", "vendor_code"),
   ("price", "cost"), ("unit_price", "cost"), ("unitprice", "cost"),
   ("price_per_uom", "cost"), ("price_per_unom", "cost"),
   ("po_price_per_unit", "cost"), ("invoice_unit_price", "cost"),
   ("price_per_unit", "cost"),
   ("category", "category_raw"), ("sub_category", "category_raw"),
   ("categoryname", "category_raw"),
   ("is_standard_part", "is_standard_part"), ("standard_part", "is_standard_part"),
   ("active", "active_flag"), ("active_status", "active_flag"),
   ("engineer", "engineer_name"), ("engineername", "engineer_name"),
   ("drawing", "drawing_no"), ("drawing_number", "drawing_no"),
   ("created_on", "created_date"), ("creation_date", "created_date"),
   ("last_modified_date", "last_modified"), ("modified_on", "last_modified"),
   ("qty", "quantity"), ("qty_ordered", "quantity"),
   ("order_qty", "quantity"), ("qty_supplied", "quantity"),
   ("comment", "remarks"), ("comments", "remarks"),
   ("note", "notes"), ("notes_field", "notes")]

/-- Canonical name of an original column:
`COLUMN_SYNONYMS.get(_normalize_name(c), _normalize_name(c))`. -/
def canonicalOf (c : String) : String :=
  let n := normalize_name c
  (alookup COLUMN_SYNONYMS n).getD n

/-- `groups.setdefault(canonical, []).append(orig)`. -/
def addToGroups (g : List (String × List String)) (canonical orig : String) :
    List (String × List String) :=
  match g with
  | [] => [(canonical, [orig])]
  | (k, vs) :: rest =>
    if k = canonical then (k, vs ++ [orig]) :: rest
    else (k, vs) :: addToGroups rest canonical orig

/-- The canonical groups of the original columns, in first-seen order. -/
def buildGroups (origCols : List String) : List (String × List String) :=
  origCols.foldl (fun g oc => addToGroups g (canonicalOf oc) oc) []

/-- pandas `isna` on a cell. -/
def isNA : Val → Bool
  | .none => true
  | .nan => true
  | _ => false

/-- `series.replace({np.nan: None})` on a cell. -/
def replaceNanNone : Val → Val
  | .nan => Val.none
  | v => v

/-- One step of the synonym-merge loop: fill the canonical column's null
cells from column `c` (`new_df.loc[mask, canonical] = series[mask]`). -/
def mergeGroupStep (nt : Table) (c canonical : String) : Table :=
  let series := (getColD nt c).map replaceNanNone
  let canonCol := getColD nt canonical
  setColVals nt canonical
    (List.zipWith (fun a s => if isNA a && !isNA s then s else a) canonCol series)

/-- `cleansing.normalize_and_merge_columns`: group columns by canonical
name; rename singleton groups; for a multi-column group create/overwrite
the canonical column with `None`, fill it left-to-right from the group's
columns, and drop the non-canonical ones. -/
def normalize_and_merge_columns (t : Table) : Table :=
  let groups := buildGroups t.names
  groups.foldl
    (fun nt g =>
      match g.2 with
      | [c] => if c ≠ g.1 then renameCol nt c g.1 else nt
      | cs =>
        let nt := setColScalarNone nt g.1
        let nt := cs.foldl (fun nt c => mergeGroupStep nt c g.1) nt
        cs.foldl (fun nt c => if c ≠ g.1 && colExists nt c then dropCol nt c else nt) nt)
    t

/-- `cleansing._clean_str`: `None` for null/NaN, else the stripped string,
with empty and the `nan`/`none`/`null` sentinels going to `None`. -/
def clean_str (v : Val) : Val :=
  match v with
  | .none => Val.none
  | .nan => Val.none
  | _ =>
    let s := pyStrip (pyStr v)
    if s == "" || pyLower s == "nan" || pyLower s == "none" || pyLower s == "null" then
      Val.none
    else Val.str s

/-- `cleansing.basic_cleaning`: apply `_clean_str` to every cell. -/
def basic_cleaning (t : Table) : Table :=
  { t with cols := t.cols.map (fun kv => (kv.1, kv.2.map clean_str)) }

/-- One number token of `DIM_PATTERN`: `\d+(?:\.\d+)?`, maximal munch
(which coincides with the regex's backtracking semantics here, since a
digit given back can never match the following `\s*[xX]`). -/
def numToken (cs : List Char) : Option (List Char × List Char) :=
  let ds := cs.takeWhile isDigitCh
  if ds.isEmpty then Option.none
  else
    let rest := cs.drop ds.length
    match rest with
    | '.' :: r2 =>
      let fs := r2.takeWhile isDigitCh
      if fs.isEmpty then some (ds, rest)
      else some (ds ++ '.' :: fs, r2.drop fs.length)
    | _ => some (ds, rest)

/-- Case-insensitive literal prefix match returning the original slice. -/
def takePrefixCI : List Char → List Char → Option (List Char × List Char)
  | [], rest => some ([], rest)
  | _ :: _, [] => Option.none
  | pc :: ps, c :: rest =>
    if lowerChar c == pc then
      match takePrefixCI ps rest with
      | some (tk, r) => some (c :: tk, r)
      | Option.none => Option.none
    else Option.none

/-- The optional unit group `(mm|cm|inch|in)?` of `DIM_PATTERN`
(alternatives tried in the pattern's order). -/
def unitToken (cs : List Char) : Option (List Char × List Char) :=
  match takePrefixCI "mm".toList cs with
  | some r => some r
  | Option.none =>
    match takePrefixCI "cm".toList cs with
    | some r => some r
    | Option.none =>
      match takePrefixCI "inch".toList cs with
      | some r => some r
      | Option.none => takePrefixCI "in".toList cs

/-- Anchored match of `DIM_PATTERN` at the start of the text, returning the
three groups. -/
def dimMatchAt (cs : List Char) : Option (String × String × Option String) :=
  match numToken cs with
  | Option.none => Option.none
  | some (a, r1) =>
    match r1.dropWhile pySpace with
    | [] => Option.none
    | c :: r3 =>
      if c == 'x' || c == 'X' then
        match numToken (r3.dropWhile pySpace) with
        | Option.none => Option.none
        | some (b, r4) =>
          let r5 := r4.dropWhile pySpace
          some (String.mk a, String.mk b,
                (unitToken r5).map (fun u => String.mk u.1))
      else Option.none

/-- `DIM_PATTERN.search`: leftmost match. -/
def dimSearch : List Char → Option (String × String × Option String)
  | [] => Option.none
  | c :: cs =>
    match dimMatchAt (c :: cs) with
    | some g => some g
    | Option.none => dimSearch cs

/-- The `_infer_dim` row function of `cleansing.ensure_dimensions`: keep a
truthy `dimensions` value, else search `description` for the pattern and
synthesize `"<a>x<b> <unit>"` (unit defaulting to `mm`).  A truthy
non-string description would raise `TypeError` in `re.search`; it cannot
occur after `basic_cleaning`, and is modelled as no match. -/
def infer_dim (t : Table) (i : Nat) : Val :=
  let dim := rowVal t "dimensions" i
  if pyTruthy dim then dim
  else
    let desc := rowVal t "description" i
    if !pyTruthy desc then Val.none
    else
      match desc with
      | .str s =>
        (match dimSearch s.toList with
         | some (a, b, u) => Val.str (a ++ "x" ++ b ++ " " ++ u.getD "mm")
         | Option.none => Val.none)
      | _ => Val.none

/-- `df["dimensions"] = df.apply(_infer_dim, axis=1)`. -/
def dimsApply (t : Table) : Table :=
  setColVals t "dimensions" ((List.range t.nrows).map (infer_dim t))

/-- `cleansing.ensure_dimensions`. -/
def ensure_dimensions (t : Table) : Table :=
  dimsApply (if colExists t "dimensions" then t else setColScalarNone t "dimensions")

/-- The `category_master` half of `ensure_category_columns`. -/
def ensureMaster (t : Table) : Table :=
  if colExists t "category_master" then t
  else setColVals t "category_master" (getColD t "category_raw")

/-- `cleansing.ensure_category_columns`: make sure `category_raw` exists,
and default `category_master` to a copy of `category_raw`. -/
def ensure_category_columns (t : Table) : Table :=
  ensureMaster (if colExists t "category_raw" then t else setColScalarNone t "category_raw")

/-- The core columns of `cleansing.ensure_core_fields`. -/
def need_cols : List String :=
  ["part_number", "description", "material", "dimensions", "category_raw",
   "category_master", "cost", "currency", "vendor_name"]

/-- `cleansing.ensure_core_fields`: add each missing core column as `None`. -/
def ensure_core_fields (t : Table) : Table :=
  need_cols.foldl (fun t c => if colExists t c then t else setColScalarNone t c) t

/-- `cleansing.cleanup_pipeline`: the full cleansing pipeline; `None` or an
empty frame (either axis empty) short-circuits to an empty frame. -/
def cleanup_pipeline (df : Option Table) : Table :=
  match df with
  | Option.none => Table.mk 0 []
  | some t =>
    if t.nrows == 0 || t.cols.isEmpty then Table.mk 0 []
    else
      ensure_core_fields (ensure_category_columns (ensure_dimensions
        (basic_cleaning (normalize_and_merge_columns t))))

end cleansing

section CleansingSanity

example : cleansing.normalize_name " SAP Description-Raw " = "description_raw" := by rfl
example : cleansing.normalize_name "VendorName" = "vendorname" := by rfl
example : cleansing.canonicalOf "VendorName" = "vendor_name" := by rfl
example : cleansing.canonicalOf "vendor_code" = "vendor_code" := by rfl
example : cleansing.canonicalOf "PART_NO" = "part_number" := by rfl
example : cleansing.dimSearch "bracket 10x20.5 MM steel".toList =
    some ("10", "20.5", some "MM") := by rfl
example : cleansing.dimSearch "9 12 X 5".toList = some ("12", "5", Option.none) := by rfl
example : cleansing.dimSearch "no dims".toList = Option.none := by rfl

example :
    cleansing.normalize_and_merge_columns
      (Table.mk 2 [("Vendor", [Val.str "V1", Val.none]),
                   ("VendorName", [Val.str "W1", Val.str "W2"]),
                   ("vendor_code", [Val.str "C1", Val.str "C2"])]) =
      Table.mk 2 [("vendor_code", [Val.str "C1", Val.str "C2"]),
                  ("vendor_name", [Val.str "V1", Val.str "W2"])] := by rfl

example :
    cleansing.cleanup_pipeline
      (some (Table.mk 1 [("PART_NO", [Val.str "A1"]),
                         ("Desc", [Val.str " 10x20 mm bracket "])])) =
      Table.mk 1 [("part_number", [Val.str "A1"]),
                  ("description", [Val.str "10x20 mm bracket"]),
                  ("dimensions", [Val.str "10x20 mm"]),
                  ("category_raw", [Val.none]),
                  ("category_master", [Val.none]),
                  ("material", [Val.none]),
                  ("cost", [Val.none]),
                  ("currency", [Val.none]),
                  ("vendor_name", [Val.none])] := by rfl

end CleansingSanity

/-! ### Helper lemmas on dict and overlay operations -/

/-- The value a row supplies at a key, with missing values filtered out
(the reading "holds a non-missing value at `c`" used by the claims). -/
def suppliedVal (r : Row) (c : String) : Option Val :=
  match pyGet r c with
  | some v => if merge_logic.is_missing v then Option.none else some v
  | Option.none => Option.none

theorem pyGet_pySet_eq (m : Row) (k : String) (v : Val) :
    pyGet (pySet m k v) k = some v := by
  induction m with
  | nil => simp [pySet, pyGet]
  | cons kv rest ih =>
    by_cases h : kv.1 = k
    · simp [pySet, pyGet, h]
    · simp [pySet, pyGet, h, ih]

theorem pyGet_pySet_ne (m : Row) (k k' : String) (v : Val) (h : k' ≠ k) :
    pyGet (pySet m k v) k' = pyGet m k' := by
  induction m with
  | nil =>
    simp only [pySet, pyGet]
    rw [if_neg (fun e => h e.symm)]
  | cons kv rest ih =>
    by_cases hk : kv.1 = k
    · simp [pySet, pyGet, hk, Ne.symm h]
    · simp [pySet, pyGet, hk, ih]

/-- Lookup inside the all-`None` skeleton built from a column list. -/
theorem pyGet_noneSkeleton (l : List String) (c : String) :
    pyGet (l.map (fun c => (c, Val.none))) c =
      if c ∈ l then some Val.none else Option.none := by
  induction l with
  | nil => simp [pyGet]
  | cons x xs ih =>
    by_cases h : x = c
    · simp [pyGet, h]
    · simp [pyGet, h, ih, Ne.symm h]

theorem overlayCols_cons (c : String) (cols : List String) (r m : Row) :
    merge_logic.overlayCols (c :: cols) r m =
      merge_logic.overlayCols cols r
        (match pyGet r c with
         | some v => if merge_logic.is_missing v then m else pySet m c v
         | Option.none => m) := by
  rfl

/-- The overlay's per-column update leaves other keys unchanged. -/
theorem overlayStep_get (r m : Row) (x c : String) (hx : c ≠ x) :
    pyGet
      (match pyGet r x with
       | some v => if merge_logic.is_missing v then m else pySet m x v
       | Option.none => m) c = pyGet m c := by
  cases pyGet r x with
  | none => rfl
  | some v =>
    by_cases hm : merge_logic.is_missing v
    · simp [hm]
    · simp [hm, pyGet_pySet_ne _ _ _ _ hx]

/-- A column not iterated over is untouched by the overlay. -/
theorem overlayCols_get_notMem (cols : List String) (r m : Row) (c : String)
    (h : c ∉ cols) :
    pyGet (merge_logic.overlayCols cols r m) c = pyGet m c := by
  induction cols generalizing m with
  | nil => rfl
  | cons x xs ih =>
    rw [overlayCols_cons]
    have hx : c ≠ x := fun hc => h (hc ▸ List.mem_cons_self x xs)
    have hxs : c ∉ xs := fun hc => h (List.mem_cons_of_mem x hc)
    rw [ih _ hxs]
    exact overlayStep_get r m x c hx

/-- Overlaying a row over the iterated columns: at an iterated column the
row's non-missing value wins, else the accumulator is kept. -/
theorem overlayCols_get_mem (cols : List String) (r m : Row) (c : String)
    (hmem : c ∈ cols) (hnd : cols.Nodup) :
    pyGet (merge_logic.overlayCols cols r m) c =
      match suppliedVal r c with
      | some v => some v
      | Option.none => pyGet m c := by
  induction cols generalizing m with
  | nil => cases hmem
  | cons x xs ih =>
    rw [overlayCols_cons]
    rcases List.mem_cons.mp hmem with hcx | hcxs
    · subst hcx
      have hnotxs : c ∉ xs := (List.nodup_cons.mp hnd).1
      rw [overlayCols_get_notMem _ _ _ _ hnotxs]
      cases hr : pyGet r c with
      | none => simp [suppliedVal, hr]
      | some v =>
        by_cases hm : merge_logic.is_missing v
        · simp [suppliedVal, hr, hm]
        · simp [suppliedVal, hr, hm, pyGet_pySet_eq]
    · have hnd' : xs.Nodup := (List.nodup_cons.mp hnd).2
      have hcx : c ≠ x := fun e => (List.nodup_cons.mp hnd).1 (e ▸ hcxs)
      rw [ih _ hcxs hnd']
      cases hs : suppliedVal r c with
      | none =>
        exact overlayStep_get r m x c hcx
      | some v => rfl

/-- The schema column list has no duplicates. -/
theorem DB_COLUMNS_nodup : merge_logic.DB_COLUMNS.Nodup := by decide

/-- Folding user rows over the accumulator: a column no user row supplies
keeps its accumulated value. -/
theorem usersFold_get (urs : List Row) (m : Row) (c : String)
    (hmem : c ∈ merge_logic.DB_COLUMNS)
    (h : ∀ u ∈ urs, suppliedVal u c = Option.none) :
    pyGet (urs.foldl (fun m r => merge_logic.overlayCols merge_logic.DB_COLUMNS r m) m) c
      = pyGet m c := by
  induction urs generalizing m with
  | nil => rfl
  | cons u us ih =>
    have hu : suppliedVal u c = Option.none := h u (List.mem_cons_self u us)
    have hus : ∀ w ∈ us, suppliedVal w c = Option.none :=
      fun w hw => h w (List.mem_cons_of_mem u hw)
    show pyGet (us.foldl _ (merge_logic.overlayCols merge_logic.DB_COLUMNS u m)) c = _
    rw [ih _ hus, overlayCols_get_mem _ _ _ _ hmem DB_COLUMNS_nodup, hu]

/-! ### Claims C10, C4, C1 -/

/-- Claim C10 (confirmed): the Stage-A batch merge is total on the empty
row set — `merge_records_by_part_number []` returns, without error, the
record whose only field is `sources` with the empty JSON array string
`"[]"`; in particular it contains no `part_number` and no canonical
fields. -/
theorem C10_merge_records_empty_rows :
    merge_logic.merge_records_by_part_number [] = [("sources", Val.str "[]")] := by
  rfl

/-- Claim C4 (code_bug): in `normalize_and_merge_columns`, when a synonym
group contains an original column named exactly the canonical name, the
initialisation `new_df[canonical] = None` wipes that column's values
before the left-to-right fill loop reads it, so the output is *not* the
first non-missing value in original column order.  On the one-row input
with columns `vendor_name = "A"` and `VendorName = "B"` (both canonicalize
to `vendor_name`), the code produces `"B"` where the claimed left-to-right
rule requires `"A"`. -/
theorem C4_synonym_collapse_drops_canonical_named_column :
    getCol
      (cleansing.normalize_and_merge_columns
        (Table.mk 1 [("vendor_name", [Val.str "A"]), ("VendorName", [Val.str "B"])]))
      "vendor_name" = some [Val.str "B"] ∧
    getCol (Table.mk 1 [("vendor_name", [Val.str "A"]), ("VendorName", [Val.str "B"])])
      "vendor_name" = some [Val.str "A"] := by
  exact ⟨rfl, rfl⟩

/-- Frame lemma for `merge_db_with_user`: a schema column other than
`part_number` and `sources` that the DB row supplies non-missing and no
user row supplies keeps exactly the DB value. -/
theorem stage2_schema_frame
    (db : Row) (urs : List Row) (c : String) (v : Val)
    (hc : c ∈ merge_logic.DB_COLUMNS)
    (hpn : c ≠ "part_number") (hsrc : c ≠ "sources")
    (hne : urs ≠ [])
    (hdb : suppliedVal db c = some v)
    (hu : ∀ u ∈ urs, suppliedVal u c = Option.none) :
    ∃ m, merge_logic.merge_db_with_user (some db) urs = some m ∧
      pyGet m c = some v := by
  obtain ⟨l, hl⟩ : ∃ l, urs.getLast? = some l := by
    cases h : urs.getLast? with
    | some l => exact ⟨l, rfl⟩
    | none => exact absurd (List.getLast?_eq_none_iff.mp h) hne
  refine ⟨merge_logic.mergeCore (some db) urs l, ?_, ?_⟩
  · simp [merge_logic.merge_db_with_user, hl]
  · show pyGet (pySet (pySet _ "part_number" _) "sources" _) c = some v
    rw [pyGet_pySet_ne _ _ _ _ hsrc, pyGet_pySet_ne _ _ _ _ hpn]
    show pyGet (urs.foldl _ _) c = some v
    rw [usersFold_get urs _ c hc hu,
        overlayCols_get_mem _ _ _ _ hc DB_COLUMNS_nodup, hdb]

/-- Claim C1 (confirmed): non-destructive Stage-B update — for every prior
DB row, every non-empty list of user rows and every schema column `c`
other than `part_number` and `sources`, if the DB row holds a non-missing
value at `c` and no user row holds a non-missing value at `c`, the record
returned by `merge_db_with_user` holds exactly the DB row's value at `c`. -/
theorem C1_merge_db_with_user_nondestructive
    (db : Row) (urs : List Row) (c : String) (v : Val)
    (hc : c ∈ merge_logic.DB_COLUMNS)
    (hpn : c ≠ "part_number") (hsrc : c ≠ "sources")
    (hne : urs ≠ [])
    (hdb : suppliedVal db c = some v)
    (hu : ∀ u ∈ urs, suppliedVal u c = Option.none) :
    ∃ m, merge_logic.merge_db_with_user (some db) urs = some m ∧
      pyGet m c = some v :=
  stage2_schema_frame db urs c v hc hpn hsrc hne hdb hu

/-- Witness for C1 at the spec's concrete example: a prior record with
`description = "foo"` merged with one user row supplying only
`material = "steel"` keeps `description = "foo"`. -/
theorem C1_merge_db_with_user_nondestructive_witness :
    ∃ m, merge_logic.merge_db_with_user
        (some [("description", Val.str "foo"), ("part_number", Val.str "A1")])
        [[("material", Val.str "steel")]] = some m ∧
      pyGet m "description" = some (Val.str "foo") :=
  C1_merge_db_with_user_nondestructive _ _ "description" _
    (by decide) (by decide) (by decide) (by simp)
    (by rfl)
    (by
      intro u hu
      rw [List.mem_singleton.mp hu]
      rfl)

/-! ### Shape of `_safe_str` outputs (never empty, never a missing string) -/

theorem mk_cons_ne_empty (c : Char) (l : List Char) : String.mk (c :: l) ≠ "" := by
  intro h
  have hd := congrArg String.data h
  simp at hd

/-- Stripping a string whose head is non-space keeps that head. -/
theorem strip_head (c : Char) (cs : List Char) (h1 : pySpace c = false) :
    ∃ w, pyStrip (String.mk (c :: cs)) = String.mk (c :: w) := by
  unfold pyStrip stripWith
  have ht : (String.mk (c :: cs)).toList = c :: cs := rfl
  rw [ht, List.dropWhile_cons_of_neg (by simp [h1]), List.reverse_cons,
      List.dropWhile_append]
  by_cases he : (cs.reverse.dropWhile pySpace).isEmpty
  · refine ⟨[], ?_⟩
    rw [if_pos he, List.dropWhile_cons_of_neg (by simp [h1])]
    rfl
  · refine ⟨(cs.reverse.dropWhile pySpace).reverse, ?_⟩
    rw [if_neg he, List.reverse_append]
    rfl

/-- A string headed by a non-space character other than (case-insensitive)
`n` is not one of `_is_missing`'s sentinels. -/
theorem is_missing_str_head (c : Char) (cs : List Char)
    (h1 : pySpace c = false) (h2 : lowerChar c ≠ 'n') :
    merge_logic.is_missing (Val.str (String.mk (c :: cs))) = false := by
  obtain ⟨w, hw⟩ := strip_head c cs h1
  simp only [merge_logic.is_missing, hw]
  have hlow : pyLower (String.mk (c :: w)) =
      String.mk (lowerChar c :: w.map lowerChar) := rfl
  rw [hlow]
  have hne : ∀ t : String, t.data ≠ lowerChar c :: w.map lowerChar →
      (String.mk (lowerChar c :: w.map lowerChar) == t) = false := by
    intro t ht
    rw [beq_eq_false_iff_ne]
    intro he
    exact ht (by rw [← he])
  rw [hne "" (by simp), hne "nan" ?hnan, hne "none" ?hnone, hne "null" ?hnull]
  case hnan =>
    intro h
    exact h2 (by injection h with hh _; exact hh.symm)
  case hnone =>
    intro h
    exact h2 (by injection h with hh _; exact hh.symm)
  case hnull =>
    intro h
    exact h2 (by injection h with hh _; exact hh.symm)
  rfl

theorem natReprAux_head (fuel : Nat) :
    ∀ (n : Nat) (acc : List Char), n < fuel →
      ∃ d rest, natReprAux fuel n acc = digitChar d :: rest ∧ d < 10 := by
  induction fuel with
  | zero => intro n acc h; omega
  | succ f ih =>
    intro n acc h
    by_cases h10 : n < 10
    · exact ⟨n, acc, by simp [natReprAux, h10], h10⟩
    · have hlt : n / 10 < n := Nat.div_lt_self (by omega) (by omega)
      have hrec : n / 10 < f := by omega
      obtain ⟨d, rest, hd, hdlt⟩ := ih (n / 10) (digitChar (n % 10) :: acc) hrec
      exact ⟨d, rest, by simp [natReprAux, h10, hd], hdlt⟩

theorem natRepr_head (n : Nat) :
    ∃ d rest, natRepr n = String.mk (digitChar d :: rest) ∧ d < 10 := by
  obtain ⟨d, rest, h, hlt⟩ := natReprAux_head (n + 1) n [] (Nat.lt_succ_self n)
  exact ⟨d, rest, by rw [natRepr, h], hlt⟩

theorem digitChar_not_space (d : Nat) (h : d < 10) : pySpace (digitChar d) = false := by
  interval_cases d <;> decide

theorem digitChar_lower_ne (d : Nat) (h : d < 10) : lowerChar (digitChar d) ≠ 'n' := by
  interval_cases d <;> decide

/-- Bracketed concatenations expose their head character. -/
theorem bracket_decomp (c : Char) (t u : String) :
    String.mk [c] ++ t ++ u = String.mk (c :: (t.data ++ u.data)) := by
  apply String.ext
  simp

/-- Any value `_safe_str` accepts prints to a non-empty string that
`_is_missing` does not reject. -/
theorem safe_str_some_shape (v : Val) (s : String)
    (h : merge_logic.safe_str v = some s) :
    s ≠ "" ∧ merge_logic.is_missing (Val.str s) = false := by
  unfold merge_logic.safe_str at h
  by_cases hm : merge_logic.is_missing v
  · rw [if_pos hm] at h; cases h
  · rw [if_neg hm] at h
    injection h with hs
    subst hs
    cases v with
    | none => exact absurd rfl hm
    | nan => exact absurd rfl hm
    | str t =>
      refine ⟨?_, by simpa using hm⟩
      intro he
      rw [show pyStr (Val.str t) = t from rfl] at he
      subst he
      exact hm rfl
    | bool b => cases b <;> exact ⟨by decide, by decide⟩
    | num n =>
      show intRepr n ≠ "" ∧ merge_logic.is_missing (Val.str (intRepr n)) = false
      unfold intRepr
      by_cases hneg : n < 0
      · rw [if_pos hneg]
        obtain ⟨d, rest, hrep, _⟩ := natRepr_head (-n).toNat
        rw [hrep, show ("-" : String) ++ String.mk (digitChar d :: rest) =
              String.mk ('-' :: digitChar d :: rest) from rfl]
        exact ⟨mk_cons_ne_empty _ _, is_missing_str_head '-' _ (by decide) (by decide)⟩
      · rw [if_neg hneg]
        obtain ⟨d, rest, hrep, hdlt⟩ := natRepr_head n.toNat
        rw [hrep]
        exact ⟨mk_cons_ne_empty _ _,
          is_missing_str_head _ _ (digitChar_not_space d hdlt) (digitChar_lower_ne d hdlt)⟩
    | list xs =>
      show pyRepr (Val.list xs) ≠ "" ∧
        merge_logic.is_missing (Val.str (pyRepr (Val.list xs))) = false
      rw [show pyRepr (Val.list xs) = "[" ++ pyReprList xs ++ "]" from
            by simp [pyRepr],
          show ("[" : String) = String.mk ['['] from rfl, bracket_decomp]
      exact ⟨mk_cons_ne_empty _ _, is_missing_str_head '[' _ (by decide) (by decide)⟩
    | dict kvs =>
      show pyRepr (Val.dict kvs) ≠ "" ∧
        merge_logic.is_missing (Val.str (pyRepr (Val.dict kvs))) = false
      rw [show pyRepr (Val.dict kvs) = "\x7b" ++ pyReprDict kvs ++ "\x7d" from
            by simp [pyRepr],
          show ("\x7b" : String) = String.mk [Char.ofNat 123] from rfl, bracket_decomp]
      exact ⟨mk_cons_ne_empty _ _,
        is_missing_str_head (Char.ofNat 123) _ (by decide) (by decide)⟩

/-- `_safe_str` is idempotent through `optVal`: re-reading a value it
produced yields the same result. -/
theorem safe_str_optVal_idem (v : Val) :
    merge_logic.safe_str (optVal (merge_logic.safe_str v)) = merge_logic.safe_str v := by
  cases h : merge_logic.safe_str v with
  | none => rfl
  | some s =>
    obtain ⟨-, hmf⟩ := safe_str_some_shape v s h
    show merge_logic.safe_str (Val.str s) = some s
    unfold merge_logic.safe_str
    rw [if_neg (by simp [hmf])]
    rfl

/-! ### Claims C7 and C3 -/

/-- The merged Stage-2 record's `part_number` is `_safe_str` of the
truthiness-based choice between the last user row and the DB row. -/
theorem mergeCore_get_pn (db : Option Row) (urs : List Row) (l : Row) :
    pyGet (merge_logic.mergeCore db urs l) "part_number" =
      some (optVal (merge_logic.safe_str (merge_logic.pnChoice db l))) := by
  unfold merge_logic.mergeCore
  rw [pyGet_pySet_ne _ _ _ _ (by decide), pyGet_pySet_eq]

/-- Claim C7 (corrected), counterexample: with a stored `part_number "A1"`
and a single user row whose `part_number` is the string `"nan"` — missing,
hence "not supplied" in the claim's sense, yet Python-truthy — the merge
emits `part_number = None` silently, instead of the claimed fallback to
the prior record's `"A1"` and instead of being invalid. -/
theorem C7_identifier_counterexample :
    suppliedVal [("part_number", Val.str "nan")] "part_number" = Option.none ∧
    suppliedVal [("part_number", Val.str "A1")] "part_number" = some (Val.str "A1") ∧
    (merge_logic.merge_db_with_user (some [("part_number", Val.str "A1")])
        [[("part_number", Val.str "nan")]]).map (fun m => pyGet m "part_number") =
      some (some Val.none) := by
  exact ⟨rfl, rfl, rfl⟩

/-- Claim C7 (corrected): the merged record's `part_number` is `_safe_str`
applied to the last user row's `part_number` when that value is
Python-*truthy* (not: non-missing), else to the prior record's; the result
is either a non-empty, non-missing string or `None` — and in the `None`
case the record is emitted silently, validity being left to callers. -/
theorem C7_identifier_amended (db : Option Row) (urs : List Row) (l : Row)
    (hl : urs.getLast? = some l) :
    ∃ m, merge_logic.merge_db_with_user db urs = some m ∧
      pyGet m "part_number" =
        some (optVal (merge_logic.safe_str (merge_logic.pnChoice db l))) ∧
      (pyGet m "part_number" = some Val.none ∨
        ∃ s, pyGet m "part_number" = some (Val.str s) ∧ s ≠ "" ∧
          merge_logic.is_missing (Val.str s) = false) := by
  refine ⟨merge_logic.mergeCore db urs l,
    by simp [merge_logic.merge_db_with_user, hl], mergeCore_get_pn db urs l, ?_⟩
  cases h : merge_logic.safe_str (merge_logic.pnChoice db l) with
  | none =>
    left
    rw [mergeCore_get_pn db urs l, h]
    rfl
  | some s =>
    right
    obtain ⟨h1, h2⟩ := safe_str_some_shape _ _ h
    exact ⟨s, by rw [mergeCore_get_pn db urs l, h]; rfl, h1, h2⟩

/-- Witness for C7's amended statement at a concrete input. -/
theorem C7_identifier_amended_witness :
    ∃ m, merge_logic.merge_db_with_user (some [("part_number", Val.str "A1")])
        [[("part_number", Val.str "B2")]] = some m ∧
      pyGet m "part_number" =
        some (optVal (merge_logic.safe_str
          (merge_logic.pnChoice (some [("part_number", Val.str "A1")])
            [("part_number", Val.str "B2")]))) ∧
      (pyGet m "part_number" = some Val.none ∨
        ∃ s, pyGet m "part_number" = some (Val.str s) ∧ s ≠ "" ∧
          merge_logic.is_missing (Val.str s) = false) :=
  C7_identifier_amended (some [("part_number", Val.str "A1")])
    [[("part_number", Val.str "B2")]] [("part_number", Val.str "B2")] (by rfl)

/-- Folding one user row's items in `merge_db_and_user` never touches key
`k` when every `k`-item carries a sentinel value. -/
theorem itemsFold_get (u b : Row) (k : String)
    (h : ∀ p ∈ u, p.1 = k → user_stage2.skipValue p.2 = true) :
    pyGet (u.foldl
        (fun b kv => if user_stage2.skipValue kv.2 then b else pySet b kv.1 kv.2) b) k
      = pyGet b k := by
  induction u generalizing b with
  | nil => rfl
  | cons p ps ih =>
    have hp := h p (List.mem_cons_self p ps)
    have hps : ∀ q ∈ ps, q.1 = k → user_stage2.skipValue q.2 = true :=
      fun q hq => h q (List.mem_cons_of_mem p hq)
    show pyGet (ps.foldl _ (if user_stage2.skipValue p.2 then b else pySet b p.1 p.2)) k
      = pyGet b k
    rw [ih _ hps]
    by_cases hs : user_stage2.skipValue p.2
    · rw [if_pos hs]
    · rw [if_neg hs, pyGet_pySet_ne _ _ _ _ (fun e => hs (hp e.symm))]

/-- The whole user overlay of `merge_db_and_user` never touches key `k`
when no user row carries a non-sentinel `k`-item. -/
theorem userOverlay_get (urs : List Row) (b : Row) (k : String)
    (h : ∀ u ∈ urs, ∀ p ∈ u, p.1 = k → user_stage2.skipValue p.2 = true) :
    pyGet (user_stage2.userOverlay b urs) k = pyGet b k := by
  induction urs generalizing b with
  | nil => rfl
  | cons u us ih =>
    show pyGet (user_stage2.userOverlay
      (u.foldl (fun b kv =>
        if user_stage2.skipValue kv.2 then b else pySet b kv.1 kv.2) b) us) k = pyGet b k
    rw [ih _ (fun w hw => h w (List.mem_cons_of_mem u hw)),
        itemsFold_get u b k (h u (List.mem_cons_self u us))]

/-- Claim C3 (corrected), counterexample: a prior record carrying the
non-schema key `custom_field = "x"`, merged by `merge_db_with_user` with a
user row that does not supply it, LOSES the key entirely — the function
rebuilds the record from the hard-coded `DB_COLUMNS` only, so unknown
fields are not passed through. -/
theorem C3_retention_counterexample :
    suppliedVal [("custom_field", Val.str "x"), ("part_number", Val.str "A1")]
      "custom_field" = some (Val.str "x") ∧
    (merge_logic.merge_db_with_user
        (some [("custom_field", Val.str "x"), ("part_number", Val.str "A1")])
        [[("part_number", Val.str "A1")]]).map (fun m => pyGet m "custom_field") =
      some Option.none := by
  exact ⟨rfl, rfl⟩

/-- Claim C3 (corrected): full-record retention holds only for
`merge_db_and_user`, which starts from a copy of the full prior record —
every key `k ≠ "sources"` it holds (schema or not) survives with its prior
value when no user row writes `k` with a non-sentinel value; for
`merge_db_with_user`, retention holds only for the schema columns other
than `part_number` and `sources` (unknown keys are dropped, see the
counterexample). -/
theorem C3_retention_amended :
    (∀ (d : Row) (urs : List Row) (k : String) (v : Val),
        k ≠ "sources" → pyGet d k = some v →
        (∀ u ∈ urs, ∀ p ∈ u, p.1 = k → user_stage2.skipValue p.2 = true) →
        pyGet (user_stage2.merge_db_and_user (some d) urs) k = some v) ∧
    (∀ (db : Row) (urs : List Row) (c : String) (v : Val),
        c ∈ merge_logic.DB_COLUMNS → c ≠ "part_number" → c ≠ "sources" →
        urs ≠ [] → suppliedVal db c = some v →
        (∀ u ∈ urs, suppliedVal u c = Option.none) →
        ∃ m, merge_logic.merge_db_with_user (some db) urs = some m ∧
          pyGet m c = some v) := by
  constructor
  · intro d urs k v hk hd hu
    show pyGet (pySet (user_stage2.userOverlay d urs) "sources" _) k = some v
    rw [pyGet_pySet_ne _ _ _ _ hk, userOverlay_get urs d k hu, hd]
  · intro db urs c v hc hpn hsrc hne hdb hu
    exact stage2_schema_frame db urs c v hc hpn hsrc hne hdb hu

/-- Witness for C3's amended statement: both merge implementations applied
at concrete inputs. -/
theorem C3_retention_amended_witness :
    pyGet (user_stage2.merge_db_and_user
        (some [("custom_field", Val.str "x"), ("part_number", Val.str "A1")])
        [[("material", Val.str "steel")]]) "custom_field" = some (Val.str "x") ∧
    (∃ m, merge_logic.merge_db_with_user
        (some [("description", Val.str "bar"), ("part_number", Val.str "A1")])
        [[("material", Val.str "steel")]] = some m ∧
      pyGet m "description" = some (Val.str "bar")) := by
  constructor
  · refine C3_retention_amended.1 _ _ _ _ (by decide) (by rfl) ?_
    intro u hu p hp hk
    rw [List.mem_singleton.mp hu] at hp
    rw [List.mem_singleton.mp hp] at hk
    exact absurd hk (by decide)
  · refine C3_retention_amended.2 _ _ _ _ (by decide) (by decide) (by decide)
      (by simp) (by rfl) ?_
    intro u hu
    rw [List.mem_singleton.mp hu]
    rfl

/-! ### Claim C5: Stage-A last-non-null-wins merge -/

/-- Specification-side reading of the Stage-A field rule: the value of the
last row in input order that supplies a non-missing value at `k`. -/
def lastSupplied (rows : List Row) (k : String) : Option Val :=
  rows.reverse.findSome? (fun r => suppliedVal r k)

/-- Specification-side reading of the Stage-A provenance rule: one
`{source_system, source_file}` pair (as `_safe_str`-ed by `stage1Entry`)
per row whose `source_system` or `source_file` is non-missing, in input
order. -/
def stage1ExpectedSources : List Row → List Val
  | [] => []
  | r :: rest =>
    if merge_logic.is_missing (pyGetD r "source_system" Val.none) &&
       merge_logic.is_missing (pyGetD r "source_file" Val.none) then
      stage1ExpectedSources rest
    else Val.dict (merge_logic.stage1Entry r) :: stage1ExpectedSources rest

/-- `_safe_str` composed with `optVal` is truthy exactly on non-missing
values (its output string is never empty). -/
theorem truthy_optVal_safe_str (x : Val) :
    pyTruthy (optVal (merge_logic.safe_str x)) = !merge_logic.is_missing x := by
  by_cases hm : merge_logic.is_missing x
  · rw [show merge_logic.safe_str x = Option.none from by
        unfold merge_logic.safe_str; rw [if_pos hm]]
    simp [optVal, pyTruthy, hm]
  · have h : merge_logic.safe_str x = some (pyStr x) := by
      unfold merge_logic.safe_str; rw [if_neg hm]
    obtain ⟨hne, -⟩ := safe_str_some_shape x (pyStr x) h
    rw [h]
    simp [optVal, pyTruthy, hne, hm]

theorem suppliedVal_cons (p : String × Val) (rest : Row) (k : String) :
    suppliedVal (p :: rest) k =
      if p.1 = k then
        (if merge_logic.is_missing p.2 then Option.none else some p.2)
      else suppliedVal rest k := by
  by_cases h : p.1 = k <;> simp [suppliedVal, pyGet, h]

/-- The Stage-1 item loop never touches a key the row does not carry. -/
theorem stage1Items_get_nokey (r : Row) (k : String) :
    ∀ m : Row, (∀ p ∈ r, p.1 ≠ k) →
      pyGet (merge_logic.stage1Items r m) k = pyGet m k := by
  induction r with
  | nil => intro m _; rfl
  | cons p ps ih =>
    intro m h
    have hp : p.1 ≠ k := h p (List.mem_cons_self p ps)
    show pyGet (merge_logic.stage1Items ps _) k = pyGet m k
    rw [ih _ (fun q hq => h q (List.mem_cons_of_mem p hq))]
    show pyGet (if p.1 = "sources" then m
        else if merge_logic.is_missing p.2 then m else pySet m p.1 p.2) k = pyGet m k
    by_cases h1 : p.1 = "sources"
    · rw [if_pos h1]
    · rw [if_neg h1]
      by_cases h2 : merge_logic.is_missing p.2
      · rw [if_pos h2]
      · rw [if_neg h2, pyGet_pySet_ne _ _ _ _ (fun e => hp e.symm)]

/-- The Stage-1 item loop at a key `k ≠ "sources"`: the row's non-missing
value wins, else the accumulator value is kept (rows being Python dicts,
keys are assumed unrepeated). -/
theorem stage1Items_get (r : Row) (k : String) (hk : k ≠ "sources") :
    ∀ m : Row, (r.map Prod.fst).Nodup →
      pyGet (merge_logic.stage1Items r m) k =
        match suppliedVal r k with
        | some v => some v
        | Option.none => pyGet m k := by
  induction r with
  | nil => intro m _; rfl
  | cons p ps ih =>
    intro m hnd
    rw [List.map_cons, List.nodup_cons] at hnd
    obtain ⟨hhead, hnd'⟩ := hnd
    show pyGet (merge_logic.stage1Items ps _) k = _
    rw [suppliedVal_cons]
    by_cases hpk : p.1 = k
    · have hnok : ∀ q ∈ ps, q.1 ≠ k := by
        intro q hq e
        exact hhead (by rw [hpk, ← e]; exact List.mem_map_of_mem Prod.fst hq)
      rw [stage1Items_get_nokey ps k _ hnok, if_pos hpk]
      show pyGet (if p.1 = "sources" then m
          else if merge_logic.is_missing p.2 then m else pySet m p.1 p.2) k =
        match (if merge_logic.is_missing p.2 then Option.none else some p.2) with
        | some v => some v
        | Option.none => pyGet m k
      rw [if_neg (fun e : p.1 = "sources" => hk (hpk.symm.trans e))]
      by_cases hm : merge_logic.is_missing p.2
      · rw [if_pos hm, if_pos hm]
      · rw [if_neg hm, if_neg hm, hpk, pyGet_pySet_eq]
    · rw [ih _ hnd', if_neg hpk]
      cases hs : suppliedVal ps k
      · show pyGet (if p.1 = "sources" then m
            else if merge_logic.is_missing p.2 then m else pySet m p.1 p.2) k = pyGet m k
        by_cases h1 : p.1 = "sources"
        · rw [if_pos h1]
        · rw [if_neg h1]
          by_cases h2 : merge_logic.is_missing p.2
          · rw [if_pos h2]
          · rw [if_neg h2, pyGet_pySet_ne _ _ _ _ (fun e => hpk e.symm)]
      · rfl

theorem lastSupplied_cons (r : Row) (rest : List Row) (k : String) :
    lastSupplied (r :: rest) k = (lastSupplied rest k).or (suppliedVal r k) := by
  unfold lastSupplied
  rw [List.reverse_cons, List.findSome?_append]
  have h1 : List.findSome? (fun r => suppliedVal r k) [r] = suppliedVal r k := by
    cases h : suppliedVal r k <;> simp [List.findSome?_cons, h]
  rw [h1]

/-- The merged component of the Stage-1 fold realizes last-non-null-wins. -/
theorem stage1_fold_merged (rows : List Row) (k : String) (hk : k ≠ "sources") :
    ∀ acc : Row × List Val, (∀ r ∈ rows, (r.map Prod.fst).Nodup) →
      pyGet (rows.foldl merge_logic.stage1Step acc).1 k =
        match lastSupplied rows k with
        | some v => some v
        | Option.none => pyGet acc.1 k := by
  induction rows with
  | nil => intro acc _; rfl
  | cons r rest ih =>
    intro acc hnd
    show pyGet (rest.foldl merge_logic.stage1Step (merge_logic.stage1Step acc r)).1 k = _
    rw [ih _ (fun q hq => hnd q (List.mem_cons_of_mem r hq)),
        lastSupplied_cons]
    have hstep : (merge_logic.stage1Step acc r).1 = merge_logic.stage1Items r acc.1 := rfl
    rw [hstep, stage1Items_get r k hk acc.1 (hnd r (List.mem_cons_self r rest))]
    cases h1 : lastSupplied rest k <;> cases h2 : suppliedVal r k <;>
      simp [Option.or]

/-- The sources component of the Stage-1 fold is append-only and collects
exactly the rows naming a source. -/
theorem stage1_fold_sources (rows : List Row) :
    ∀ acc : Row × List Val,
      (rows.foldl merge_logic.stage1Step acc).2 =
        acc.2 ++ stage1ExpectedSources rows := by
  induction rows with
  | nil => intro acc; simp [stage1ExpectedSources]
  | cons r rest ih =>
    intro acc
    show (rest.foldl merge_logic.stage1Step (merge_logic.stage1Step acc r)).2 = _
    rw [ih]
    have hcond :
        (pyTruthy (pyGetD (merge_logic.stage1Entry r) "source_system" Val.none) ||
         pyTruthy (pyGetD (merge_logic.stage1Entry r) "source_file" Val.none)) =
        !(merge_logic.is_missing (pyGetD r "source_system" Val.none) &&
          merge_logic.is_missing (pyGetD r "source_file" Val.none)) := by
      show (pyTruthy (optVal (merge_logic.safe_str (pyGetD r "source_system" Val.none))) ||
            pyTruthy (optVal (merge_logic.safe_str (pyGetD r "source_file" Val.none)))) = _
      rw [truthy_optVal_safe_str, truthy_optVal_safe_str, Bool.not_and]
    have hstep : (merge_logic.stage1Step acc r).2 =
        if pyTruthy (pyGetD (merge_logic.stage1Entry r) "source_system" Val.none) ||
           pyTruthy (pyGetD (merge_logic.stage1Entry r) "source_file" Val.none) then
          acc.2 ++ [Val.dict (merge_logic.stage1Entry r)]
        else acc.2 := rfl
    have hunfold : stage1ExpectedSources (r :: rest) =
        if (merge_logic.is_missing (pyGetD r "source_system" Val.none) &&
            merge_logic.is_missing (pyGetD r "source_file" Val.none)) then
          stage1ExpectedSources rest
        else Val.dict (merge_logic.stage1Entry r) :: stage1ExpectedSources rest := rfl
    by_cases hc : (pyTruthy (pyGetD (merge_logic.stage1Entry r) "source_system" Val.none) ||
        pyTruthy (pyGetD (merge_logic.stage1Entry r) "source_file" Val.none)) = true
    · rw [hstep, if_pos hc]
      have hm : (merge_logic.is_missing (pyGetD r "source_system" Val.none) &&
          merge_logic.is_missing (pyGetD r "source_file" Val.none)) = false := by
        rw [hcond] at hc
        cases hb : (merge_logic.is_missing (pyGetD r "source_system" Val.none) &&
            merge_logic.is_missing (pyGetD r "source_file" Val.none)) with
        | false => rfl
        | true => rw [hb] at hc; exact absurd hc (by decide)
      rw [hunfold, if_neg (by simp [hm]), List.append_assoc]
      rfl
    · rw [hstep, if_neg hc]
      have hm : (merge_logic.is_missing (pyGetD r "source_system" Val.none) &&
          merge_logic.is_missing (pyGetD r "source_file" Val.none)) = true := by
        rw [hcond] at hc
        cases hb : (merge_logic.is_missing (pyGetD r "source_system" Val.none) &&
            merge_logic.is_missing (pyGetD r "source_file" Val.none)) with
        | true => rfl
        | false => rw [hb] at hc; exact absurd (by decide) hc
      rw [hunfold, if_pos hm]

/-- Claim C5 (confirmed): Stage-A last-non-null-wins merge — for every row
list (rows being dicts, with unrepeated keys) and key `k ≠ "sources"`,
`merge_records_by_part_number` maps `k` to the last row's non-missing
value (absent when no row supplies one), and its `sources` field is the
JSON-array string of exactly the `{source_system, source_file}` pairs of
the rows whose `source_system` or `source_file` is non-missing, in input
order. -/
theorem C5_stage1_last_non_null_wins (rows : List Row) (k : String)
    (hk : k ≠ "sources")
    (hnd : ∀ r ∈ rows, (r.map Prod.fst).Nodup) :
    pyGet (merge_logic.merge_records_by_part_number rows) k = lastSupplied rows k ∧
    pyGet (merge_logic.merge_records_by_part_number rows) "sources" =
      some (Val.str (dumps (merge_logic.clean_for_json
        (Val.list (stage1ExpectedSources rows))))) := by
  constructor
  · show pyGet (pySet (rows.foldl merge_logic.stage1Step ([], [])).1 "sources" _) k = _
    rw [pyGet_pySet_ne _ _ _ _ hk, stage1_fold_merged rows k hk ([], []) hnd]
    cases h : lastSupplied rows k <;> simp [pyGet]
  · show pyGet (pySet _ "sources" _) "sources" = _
    rw [pyGet_pySet_eq, stage1_fold_sources rows ([], []), List.nil_append]

/-- Witness for C5 at a two-row input where the second row overrides
`cost` but supplies a missing `material`. -/
theorem C5_stage1_last_non_null_wins_witness :
    pyGet (merge_logic.merge_records_by_part_number
        [[("part_number", Val.str "A1"), ("cost", Val.str "5"),
          ("source_system", Val.str "sap"), ("source_file", Val.str "s.xlsx")],
         [("part_number", Val.str "A1"), ("cost", Val.str "7"),
          ("material", Val.str "nan")]]) "cost" =
      lastSupplied
        [[("part_number", Val.str "A1"), ("cost", Val.str "5"),
          ("source_system", Val.str "sap"), ("source_file", Val.str "s.xlsx")],
         [("part_number", Val.str "A1"), ("cost", Val.str "7"),
          ("material", Val.str "nan")]] "cost" ∧
    pyGet (merge_logic.merge_records_by_part_number
        [[("part_number", Val.str "A1"), ("cost", Val.str "5"),
          ("source_system", Val.str "sap"), ("source_file", Val.str "s.xlsx")],
         [("part_number", Val.str "A1"), ("cost", Val.str "7"),
          ("material", Val.str "nan")]]) "sources" =
      some (Val.str (dumps (merge_logic.clean_for_json (Val.list
        (stage1ExpectedSources
          [[("part_number", Val.str "A1"), ("cost", Val.str "5"),
            ("source_system", Val.str "sap"), ("source_file", Val.str "s.xlsx")],
           [("part_number", Val.str "A1"), ("cost", Val.str "7"),
            ("material", Val.str "nan")]]))))) :=
  C5_stage1_last_non_null_wins _ "cost" (by decide) (by decide)

/-! ### Claim C2: Field-Resolver priority law -/

/-- Position of an element in a list (the claim's notion of priority rank:
`PRIORITY` is ordered lowest to highest, so a larger rank means higher
priority). -/
def rank (x : String) : List String → Nat
  | [] => 0
  | y :: l => if y = x then 0 else rank x l + 1

/-- `PRIORITY` has no duplicates. -/
theorem PRIORITY_nodup : mapping_engine.PRIORITY.Nodup := by decide

/-- A `findSome?` whose every hit carries the same value returns it as
soon as one member hits. -/
theorem findSome?_of_uniform {α β : Type} (l : List α) (g : α → Option β) (v : β)
    (hall : ∀ x ∈ l, g x = Option.none ∨ g x = some v)
    (hex : ∃ x ∈ l, g x = some v) :
    l.findSome? g = some v := by
  induction l with
  | nil => obtain ⟨x, hx, -⟩ := hex; cases hx
  | cons y ys ih =>
    rw [List.findSome?_cons]
    cases hy : g y with
    | some w =>
      rcases hall y (List.mem_cons_self y ys) with h | h
      · rw [hy] at h; cases h
      · rw [hy] at h; injection h with h; rw [h]
    | none =>
      apply ih (fun x hx => hall x (List.mem_cons_of_mem y hx))
      obtain ⟨x, hx, hgx⟩ := hex
      rcases List.mem_cons.mp hx with rfl | hx'
      · rw [hy] at hgx; cases hgx
      · exact ⟨x, hx', hgx⟩

/-- Scanning a list in reverse: the member of highest position (rank) whose
scan hits wins, provided every higher-ranked member misses. -/
theorem findSome_reverse_rank {β : Type} (l : List String)
    (g : String → Option β) (b : String) (v : β)
    (hb : b ∈ l) (hnd : l.Nodup) (hgb : g b = some v)
    (hother : ∀ x ∈ l, rank b l < rank x l → g x = Option.none) :
    l.reverse.findSome? g = some v := by
  induction l with
  | nil => cases hb
  | cons c rest ih =>
    rw [List.reverse_cons, List.findSome?_append]
    obtain ⟨hcnot, hnd'⟩ := List.nodup_cons.mp hnd
    by_cases hcb : c = b
    · subst hcb
      have hrest : rest.reverse.findSome? g = Option.none := by
        rw [List.findSome?_eq_none_iff]
        intro x hx
        have hxrest := List.mem_reverse.mp hx
        have hxc : x ≠ c := fun e => hcnot (e ▸ hxrest)
        refine hother x (List.mem_cons_of_mem c hxrest) ?_
        show rank c (c :: rest) < rank x (c :: rest)
        have h0 : rank c (c :: rest) = 0 := by simp [rank]
        have h1 : rank x (c :: rest) = rank x rest + 1 := by
          rw [show rank x (c :: rest) = if c = x then 0 else rank x rest + 1 from rfl,
              if_neg (fun e => hxc e.symm)]
        omega
      rw [hrest]
      cases hgbv : g c with
      | some w => rw [hgbv] at hgb; injection hgb with h; simp [hgbv, h]
      | none => rw [hgbv] at hgb; cases hgb
    · have hbrest : b ∈ rest := by
        rcases List.mem_cons.mp hb with e | h
        · exact absurd e.symm hcb
        · exact h
      have hrec : rest.reverse.findSome? g = some v := by
        apply ih hbrest hnd'
        intro x hx hrank
        have hxc : c ≠ x := fun e => hcnot (e ▸ hx)
        refine hother x (List.mem_cons_of_mem c hx) ?_
        rw [show rank b (c :: rest) = rank b rest + 1 from by simp [rank, hcb],
            show rank x (c :: rest) = rank x rest + 1 from by simp [rank, hxc]]
        omega
      rw [hrec]
      rfl

/-- Claim C2 (confirmed): Field-Resolver priority law.  First conjunct: for
a canonical field `f` of `FIELD_MAP` and rows containing a row from system
`A` and one from system `B`, with `B` ranked strictly higher in `PRIORITY`,
both rows resolving one of `f`'s aliases (`firstKeyVal` is the inner
alias-order scan, its result `_val`-normalized) and no other row resolving
any, `resolve_field` returns the B-row's value whatever the row order.
Second conjunct: when no row resolves any alias, `resolve_field` returns
`None` (no exception: the outer `some`). -/
theorem C2_resolve_field_priority :
    (∀ (f : String) (keys : List String) (rows : List Row)
       (A B : String) (rA rB : Row) (a b : String),
      mapping_engine.fmLookup mapping_engine.FIELD_MAP f = some keys →
      A ∈ mapping_engine.PRIORITY → B ∈ mapping_engine.PRIORITY →
      rank A mapping_engine.PRIORITY < rank B mapping_engine.PRIORITY →
      rA ∈ rows → rB ∈ rows →
      pyGetD rA "source_system" Val.none = Val.str A →
      pyGetD rB "source_system" Val.none = Val.str B →
      mapping_engine.firstKeyVal keys rA = some a →
      mapping_engine.firstKeyVal keys rB = some b →
      (∀ r ∈ rows, mapping_engine.firstKeyVal keys r ≠ Option.none →
        r = rA ∨ r = rB) →
      mapping_engine.resolve_field f rows = some (some b)) ∧
    (∀ (f : String) (keys : List String) (rows : List Row),
      mapping_engine.fmLookup mapping_engine.FIELD_MAP f = some keys →
      (∀ r ∈ rows, mapping_engine.firstKeyVal keys r = Option.none) →
      mapping_engine.resolve_field f rows = some Option.none) := by
  constructor
  · intro f keys rows A B rA rB a b hf hA hB hrank hrA hrB hsrcA hsrcB hfkA hfkB honly
    have hfromA : ∀ x, mapping_engine.rowIsFrom rA x = (A == x) := by
      intro x
      unfold mapping_engine.rowIsFrom
      rw [hsrcA]
    have hfromB : ∀ x, mapping_engine.rowIsFrom rB x = (B == x) := by
      intro x
      unfold mapping_engine.rowIsFrom
      rw [hsrcB]
    have hAB : A ≠ B := fun e => by rw [e] at hrank; omega
    have hpass : mapping_engine.PRIORITY.reverse.findSome?
        (fun src => rows.findSome?
          (fun r => if !mapping_engine.rowIsFrom r src then Option.none
                    else mapping_engine.firstKeyVal keys r)) = some b := by
      apply findSome_reverse_rank _ _ B b hB PRIORITY_nodup
      · apply findSome?_of_uniform
        · intro r hr
          by_cases hfrom : mapping_engine.rowIsFrom r B
          · by_cases hfk : mapping_engine.firstKeyVal keys r = Option.none
            · left; simp [hfrom, hfk]
            · rcases honly r hr hfk with rfl | rfl
              · rw [hfromA] at hfrom
                exact absurd (eq_of_beq hfrom) hAB
              · right; simp [hfrom, hfkB]
          · left; simp [hfrom]
        · refine ⟨rB, hrB, ?_⟩
          have ht : mapping_engine.rowIsFrom rB B = true := by
            rw [hfromB]; simp
          simp [ht, hfkB]
      · intro x hx hrankx
        rw [List.findSome?_eq_none_iff]
        intro r hr
        by_cases hfrom : mapping_engine.rowIsFrom r x
        · by_cases hfk : mapping_engine.firstKeyVal keys r = Option.none
          · simp [hfrom, hfk]
          · rcases honly r hr hfk with rfl | rfl
            · rw [hfromA] at hfrom
              have hax : A = x := eq_of_beq hfrom
              rw [← hax] at hrankx
              omega
            · rw [hfromB] at hfrom
              have hbx : B = x := eq_of_beq hfrom
              rw [← hbx] at hrankx
              omega
        · simp [hfrom]
    unfold mapping_engine.resolve_field
    rw [hf]
    show (match mapping_engine.PRIORITY.reverse.findSome?
        (fun src => rows.findSome?
          (fun r => if !mapping_engine.rowIsFrom r src then Option.none
                    else mapping_engine.firstKeyVal keys r)) with
      | some v => some (some v)
      | Option.none =>
        match rows.findSome? (fun r => mapping_engine.firstKeyVal keys r) with
        | some v => some (some v)
        | Option.none => some Option.none) = some (some b)
    rw [hpass]
  · intro f keys rows hf hnone
    have hpass : mapping_engine.PRIORITY.reverse.findSome?
        (fun src => rows.findSome?
          (fun r => if !mapping_engine.rowIsFrom r src then Option.none
                    else mapping_engine.firstKeyVal keys r)) = Option.none := by
      rw [List.findSome?_eq_none_iff]
      intro src _
      rw [List.findSome?_eq_none_iff]
      intro r hr
      by_cases hfrom : mapping_engine.rowIsFrom r src
      · simp [hfrom, hnone r hr]
      · simp [hfrom]
    have hfall : rows.findSome? (fun r => mapping_engine.firstKeyVal keys r) =
        Option.none := by
      rw [List.findSome?_eq_none_iff]
      intro r hr
      exact hnone r hr
    unfold mapping_engine.resolve_field
    rw [hf]
    show (match mapping_engine.PRIORITY.reverse.findSome?
        (fun src => rows.findSome?
          (fun r => if !mapping_engine.rowIsFrom r src then Option.none
                    else mapping_engine.firstKeyVal keys r)) with
      | some v => some (some v)
      | Option.none =>
        match rows.findSome? (fun r => mapping_engine.firstKeyVal keys r) with
        | some v => some (some v)
        | Option.none => some Option.none) = some Option.none
    rw [hpass, hfall]

/-- Witness for C2: `vault` outranks `powerbi`, so the vault row's material
wins whatever the row order; and an alias-free row set resolves to `None`. -/
theorem C2_resolve_field_priority_witness :
    mapping_engine.resolve_field "material"
      [[("source_system", Val.str "vault"), ("vault_material", Val.str "alu")],
       [("source_system", Val.str "powerbi"), ("material", Val.str "steel")]] =
      some (some "alu") ∧
    mapping_engine.resolve_field "material"
      [[("source_system", Val.str "sap"), ("description", Val.str "x")]] =
      some Option.none := by
  constructor
  · exact C2_resolve_field_priority.1 "material" _
      [[("source_system", Val.str "vault"), ("vault_material", Val.str "alu")],
       [("source_system", Val.str "powerbi"), ("material", Val.str "steel")]]
      "powerbi" "vault"
      [("source_system", Val.str "powerbi"), ("material", Val.str "steel")]
      [("source_system", Val.str "vault"), ("vault_material", Val.str "alu")]
      "steel" "alu"
      (by rfl) (by decide) (by decide) (by decide)
      (by simp) (by simp) (by rfl) (by rfl) (by rfl) (by rfl)
      (by
        intro r hr hne
        rcases List.mem_cons.mp hr with rfl | hr'
        · right; rfl
        · left
          rw [List.mem_singleton.mp hr'])
  · exact C2_resolve_field_priority.2 "material" _ _ (by rfl)
      (by
        intro r hr
        rw [List.mem_singleton.mp hr]
        rfl)

/-! ### Claim C8: Stage-2 idempotence -/

theorem suppliedVal_some_iff (r : Row) (k : String) (v : Val) :
    suppliedVal r k = some v ↔
      (pyGet r k = some v ∧ merge_logic.is_missing v = false) := by
  unfold suppliedVal
  cases h : pyGet r k with
  | none => simp
  | some w =>
    show (if merge_logic.is_missing w then Option.none else some w) = some v ↔ _
    by_cases hm : merge_logic.is_missing w
    · rw [if_pos hm]
      constructor
      · intro e; cases e
      · rintro ⟨e, hv⟩
        injection e with e
        subst e
        rw [hm] at hv
        cases hv
    · rw [if_neg hm]
      constructor
      · intro e
        injection e with e
        subst e
        exact ⟨rfl, by simpa using hm⟩
      · rintro ⟨e, -⟩
        exact e

/-- The user-rows fold of `merge_db_with_user` never touches keys outside
the schema. -/
theorem usersFold_get_notMem (urs : List Row) (k : String)
    (hk : k ∉ merge_logic.DB_COLUMNS) :
    ∀ m : Row,
      pyGet (urs.foldl (fun m r => merge_logic.overlayCols merge_logic.DB_COLUMNS r m) m) k
        = pyGet m k := by
  induction urs with
  | nil => intro m; rfl
  | cons u us ih =>
    intro m
    show pyGet (us.foldl _ (merge_logic.overlayCols merge_logic.DB_COLUMNS u m)) k = _
    rw [ih, overlayCols_get_notMem _ _ _ _ hk]

/-- A Stage-2 merged record holds no key outside the schema. -/
theorem mergeCore_get_notMem (db : Option Row) (us : List Row) (l : Row)
    (k : String) (hk : k ∉ merge_logic.DB_COLUMNS) :
    pyGet (merge_logic.mergeCore db us l) k = Option.none := by
  have hpn : k ≠ "part_number" := fun e => hk (e ▸ (by decide))
  have hsrc : k ≠ "sources" := fun e => hk (e ▸ (by decide))
  show pyGet (pySet (pySet (merge_logic.mergeOverlay db us) "part_number" _) "sources" _) k
    = Option.none
  rw [pyGet_pySet_ne _ _ _ _ hsrc, pyGet_pySet_ne _ _ _ _ hpn]
  unfold merge_logic.mergeOverlay
  rw [usersFold_get_notMem us k hk]
  cases db with
  | none => rw [pyGet_noneSkeleton, if_neg hk]
  | some d =>
    rw [overlayCols_get_notMem _ _ _ _ hk, pyGet_noneSkeleton, if_neg hk]

/-- One overlay step keeps the `None`-or-non-missing invariant at a schema
column. -/
theorem overlay_pres_step (u base : Row) (k : String)
    (hk : k ∈ merge_logic.DB_COLUMNS)
    (hbase : pyGet base k = some Val.none ∨
      ∃ v, pyGet base k = some v ∧ merge_logic.is_missing v = false) :
    pyGet (merge_logic.overlayCols merge_logic.DB_COLUMNS u base) k = some Val.none ∨
      ∃ v, pyGet (merge_logic.overlayCols merge_logic.DB_COLUMNS u base) k = some v ∧
        merge_logic.is_missing v = false := by
  rw [overlayCols_get_mem _ _ _ _ hk DB_COLUMNS_nodup]
  cases hs : suppliedVal u k with
  | none => exact hbase
  | some v => exact Or.inr ⟨v, rfl, ((suppliedVal_some_iff u k v).mp hs).2⟩

/-- The user fold keeps the `None`-or-non-missing invariant. -/
theorem usersFold_pres (us : List Row) (k : String)
    (hk : k ∈ merge_logic.DB_COLUMNS) :
    ∀ base : Row,
      (pyGet base k = some Val.none ∨
        ∃ v, pyGet base k = some v ∧ merge_logic.is_missing v = false) →
      (pyGet (us.foldl
          (fun m r => merge_logic.overlayCols merge_logic.DB_COLUMNS r m) base) k
          = some Val.none ∨
        ∃ v, pyGet (us.foldl
            (fun m r => merge_logic.overlayCols merge_logic.DB_COLUMNS r m) base) k
            = some v ∧ merge_logic.is_missing v = false) := by
  induction us with
  | nil => intro base h; exact h
  | cons u uss ih =>
    intro base h
    exact ih _ (overlay_pres_step u base k hk h)

/-- A Stage-2 merged record's schema values (identifier and provenance
apart) are either `None` or non-missing. -/
theorem mergeCore_get_mem_val (db : Option Row) (us : List Row) (l : Row)
    (k : String) (hk : k ∈ merge_logic.DB_COLUMNS)
    (hpn : k ≠ "part_number") (hsrc : k ≠ "sources") :
    pyGet (merge_logic.mergeCore db us l) k = some Val.none ∨
      ∃ v, pyGet (merge_logic.mergeCore db us l) k = some v ∧
        merge_logic.is_missing v = false := by
  unfold merge_logic.mergeCore
  rw [pyGet_pySet_ne _ _ _ _ hsrc, pyGet_pySet_ne _ _ _ _ hpn]
  unfold merge_logic.mergeOverlay
  apply usersFold_pres us k hk
  cases db with
  | none =>
    left
    rw [pyGet_noneSkeleton, if_pos hk]
  | some d =>
    exact overlay_pres_step d _ k hk
      (Or.inl (by rw [pyGet_noneSkeleton, if_pos hk]))

/-- Merging a record with itself as the single user row: each ordinary
schema column ends up with the record's own non-missing value, or `None`. -/
theorem mergeCore_self_get (R l2 : Row) (k : String)
    (hmem : k ∈ merge_logic.DB_COLUMNS)
    (hpn : k ≠ "part_number") (hsrc : k ≠ "sources") :
    pyGet (merge_logic.mergeCore (some R) [R] l2) k =
      match suppliedVal R k with
      | some v => some v
      | Option.none => some Val.none := by
  unfold merge_logic.mergeCore
  rw [pyGet_pySet_ne _ _ _ _ hsrc, pyGet_pySet_ne _ _ _ _ hpn]
  show pyGet (merge_logic.overlayCols merge_logic.DB_COLUMNS R
    (merge_logic.overlayCols merge_logic.DB_COLUMNS R
      (merge_logic.DB_COLUMNS.map (fun c => (c, Val.none))))) k = _
  rw [overlayCols_get_mem _ _ _ _ hmem DB_COLUMNS_nodup,
      overlayCols_get_mem _ _ _ _ hmem DB_COLUMNS_nodup,
      pyGet_noneSkeleton, if_pos hmem]
  cases suppliedVal R k <;> rfl

/-- Claim C8 (confirmed): Stage-2 idempotence — merging a record previously
produced by `merge_db_with_user` with itself as the single new user row
yields a record equal to it on every field except `sources`, which becomes
the serialization of the decoded prior entries plus exactly one appended
(duplicate) provenance entry for the record itself. -/
theorem C8_stage2_idempotence (db0 : Option Row) (urs0 : List Row) (r : Row)
    (hr : merge_logic.merge_db_with_user db0 urs0 = some r) :
    ∃ m, merge_logic.merge_db_with_user (some r) [r] = some m ∧
      (∀ k, k ≠ "sources" → pyGet m k = pyGet r k) ∧
      pyGet m "sources" = some (Val.str (dumps (merge_logic.clean_for_json
        (Val.list (merge_logic.parse_sources_json (pyGetD r "sources" Val.none)
          ++ [merge_logic.userEntry r]))))) := by
  obtain ⟨l, hl, hrc⟩ : ∃ l, urs0.getLast? = some l ∧
      merge_logic.mergeCore db0 urs0 l = r := by
    unfold merge_logic.merge_db_with_user at hr
    cases hlast : urs0.getLast? with
    | none => rw [hlast] at hr; cases hr
    | some l => rw [hlast] at hr; injection hr with hr; exact ⟨l, rfl, hr⟩
  subst hrc
  refine ⟨merge_logic.mergeCore (some (merge_logic.mergeCore db0 urs0 l))
      [merge_logic.mergeCore db0 urs0 l] (merge_logic.mergeCore db0 urs0 l),
    rfl, ?_, ?_⟩
  · intro k hksrc
    by_cases hmem : k ∈ merge_logic.DB_COLUMNS
    · by_cases hpn : k = "part_number"
      · subst hpn
        rw [mergeCore_get_pn, mergeCore_get_pn db0 urs0 l]
        have hch : merge_logic.pnChoice (some (merge_logic.mergeCore db0 urs0 l))
            (merge_logic.mergeCore db0 urs0 l) =
            pyGetD (merge_logic.mergeCore db0 urs0 l) "part_number" Val.none := by
          unfold merge_logic.pnChoice
          exact ite_self _
        rw [hch,
          show pyGetD (merge_logic.mergeCore db0 urs0 l) "part_number" Val.none =
              optVal (merge_logic.safe_str (merge_logic.pnChoice db0 l)) from by
            unfold pyGetD
            rw [mergeCore_get_pn db0 urs0 l]
            rfl,
          safe_str_optVal_idem]
      · have hM := mergeCore_self_get (merge_logic.mergeCore db0 urs0 l)
          (merge_logic.mergeCore db0 urs0 l) k hmem hpn hksrc
        rcases mergeCore_get_mem_val db0 urs0 l k hmem hpn hksrc with hnone | ⟨v, hv, hm⟩
        · rw [hM,
            show suppliedVal (merge_logic.mergeCore db0 urs0 l) k = Option.none from by
              unfold suppliedVal
              rw [hnone]
              rfl,
            hnone]
        · rw [hM, (suppliedVal_some_iff _ _ _).mpr ⟨hv, hm⟩, hv]
    · rw [mergeCore_get_notMem _ _ _ k hmem, mergeCore_get_notMem _ _ _ k hmem]
  · show pyGet (pySet _ "sources" _) "sources" = _
    rw [pyGet_pySet_eq]
    rfl

/-- Witness for C8: the output of a concrete Stage-2 merge, re-merged with
itself. -/
theorem C8_stage2_idempotence_witness :
    ∃ m, merge_logic.merge_db_with_user
        (some ((merge_logic.merge_db_with_user Option.none
          [[("part_number", Val.str "A1"), ("description", Val.str "foo"),
            ("source_file", Val.str "u.xlsx")]]).getD []))
        [((merge_logic.merge_db_with_user Option.none
          [[("part_number", Val.str "A1"), ("description", Val.str "foo"),
            ("source_file", Val.str "u.xlsx")]]).getD [])] = some m ∧
      (∀ k, k ≠ "sources" →
        pyGet m k = pyGet ((merge_logic.merge_db_with_user Option.none
          [[("part_number", Val.str "A1"), ("description", Val.str "foo"),
            ("source_file", Val.str "u.xlsx")]]).getD []) k) ∧
      pyGet m "sources" = some (Val.str (dumps (merge_logic.clean_for_json
        (Val.list (merge_logic.parse_sources_json
            (pyGetD ((merge_logic.merge_db_with_user Option.none
              [[("part_number", Val.str "A1"), ("description", Val.str "foo"),
                ("source_file", Val.str "u.xlsx")]]).getD []) "sources" Val.none)
          ++ [merge_logic.userEntry ((merge_logic.merge_db_with_user Option.none
              [[("part_number", Val.str "A1"), ("description", Val.str "foo"),
                ("source_file", Val.str "u.xlsx")]]).getD [])]))))) :=
  C8_stage2_idempotence Option.none
    [[("part_number", Val.str "A1"), ("description", Val.str "foo"),
      ("source_file", Val.str "u.xlsx")]] _ (by rfl)

/-! ### Claim C6: provenance decoding -/

/-- Claim C6 (corrected), counterexample: with a malformed prior `sources`
string, `merge_db_and_user` does NOT degrade it to a best-effort entry —
its bare `except` resets the prior provenance to `[]`, and the output
holds only the new user entry (whereas `_parse_sources_json`, used by the
other implementation, would keep `{"raw": ...}`). -/
theorem C6_provenance_counterexample :
    loads "corrupt sources" = Option.none ∧
    merge_logic.parse_sources_json (Val.str "corrupt sources") =
      [Val.dict [("raw", Val.str "corrupt sources")]] ∧
    pyGet (user_stage2.merge_db_and_user
        (some [("part_number", Val.str "A1"),
               ("sources", Val.str "corrupt sources")])
        [[("source_file", Val.str "u.xlsx")]]) "sources" =
      some (Val.str (dumps (Val.list
        [user_stage2.stage2Entry [("source_file", Val.str "u.xlsx")]]))) := by
  exact ⟨rfl, rfl, rfl⟩

/-- Claim C6 (corrected): provenance decoding.  `_parse_sources_json`
(the `merge_db_with_user` path) is tolerant: a structured list is kept
cleaned, a JSON string of a list decodes to its entries, and a malformed
non-missing string degrades to the single entry `{"raw": s}`;
`merge_db_with_user`'s output `sources` is the serialization of the
decoded prior entries followed by exactly one entry per user row.
`merge_db_and_user`, however, degrades an undecodable prior value — a
malformed string, but also an already-structured list or a decoded
non-list — to the empty list (prior provenance dropped, never fatal), and
appends its own entry per user row. -/
theorem C6_provenance_decoding_amended :
    (∀ xs : List Val, merge_logic.parse_sources_json (Val.list xs) =
      merge_logic.cleanList xs) ∧
    (∀ (s : String) (l : List Val), merge_logic.is_missing (Val.str s) = false →
      loads s = some (Val.list l) →
      merge_logic.parse_sources_json (Val.str s) = merge_logic.cleanList l) ∧
    (∀ s : String, merge_logic.is_missing (Val.str s) = false →
      loads s = Option.none →
      merge_logic.parse_sources_json (Val.str s) =
        [Val.dict [("raw", Val.str s)]]) ∧
    (∀ (db : Option Row) (urs : List Row) (l : Row), urs.getLast? = some l →
      ∃ m, merge_logic.merge_db_with_user db urs = some m ∧
        pyGet m "sources" = some (Val.str (dumps (merge_logic.clean_for_json
          (Val.list (merge_logic.parse_sources_json
              (pyGetD (db.getD []) "sources" Val.none)
            ++ urs.map merge_logic.userEntry)))))) ∧
    (∀ (d : Row) (urs : List Row),
      (∀ u ∈ urs, ∀ p ∈ u, p.1 = "sources" → user_stage2.skipValue p.2 = true) →
      pyGet (user_stage2.merge_db_and_user (some d) urs) "sources" =
        some (Val.str (dumps (Val.list (user_stage2.decodeOldSources d
          ++ urs.map user_stage2.stage2Entry))))) ∧
    (∀ (b : Row) (s : String), pyGet b "sources" = some (Val.str s) →
      loads s = Option.none → user_stage2.decodeOldSources b = []) ∧
    (∀ (b : Row) (xs : List Val), pyGet b "sources" = some (Val.list xs) →
      user_stage2.decodeOldSources b = []) := by
  refine ⟨fun xs => rfl, ?_, ?_, ?_, ?_, ?_, ?_⟩
  · intro s l hm hl
    unfold merge_logic.parse_sources_json
    rw [if_neg (by simp [hm])]
    show (match loads s with
      | some (Val.list xs) => merge_logic.cleanList xs
      | some v => [merge_logic.clean_for_json v]
      | Option.none => [Val.dict [("raw", Val.str s)]]) = merge_logic.cleanList l
    rw [hl]
  · intro s hm hl
    unfold merge_logic.parse_sources_json
    rw [if_neg (by simp [hm])]
    show (match loads s with
      | some (Val.list xs) => merge_logic.cleanList xs
      | some v => [merge_logic.clean_for_json v]
      | Option.none => [Val.dict [("raw", Val.str s)]]) =
      [Val.dict [("raw", Val.str s)]]
    rw [hl]
  · intro db urs l hl
    refine ⟨merge_logic.mergeCore db urs l,
      by simp [merge_logic.merge_db_with_user, hl], ?_⟩
    show pyGet (pySet _ "sources" (merge_logic.mergeSources db urs)) "sources" = _
    rw [pyGet_pySet_eq]
    rfl
  · intro d urs hu
    show pyGet (pySet (user_stage2.userOverlay d urs) "sources"
      (Val.str (dumps (Val.list
        (user_stage2.decodeOldSources (user_stage2.userOverlay d urs)
          ++ urs.map user_stage2.stage2Entry))))) "sources" = _
    rw [pyGet_pySet_eq]
    have hdec : user_stage2.decodeOldSources (user_stage2.userOverlay d urs) =
        user_stage2.decodeOldSources d := by
      unfold user_stage2.decodeOldSources
      rw [userOverlay_get urs d "sources" hu]
    rw [hdec]
  · intro b s hb hl
    unfold user_stage2.decodeOldSources
    rw [hb]
    show (if pyTruthy (Val.str s) then
        (match loads s with
         | some (Val.list xs) => xs
         | some _ => []
         | Option.none => [])
      else []) = []
    by_cases ht : pyTruthy (Val.str s)
    · rw [if_pos ht, hl]
    · rw [if_neg ht]
  · intro b xs hb
    unfold user_stage2.decodeOldSources
    rw [hb]
    show (if pyTruthy (Val.list xs) then ([] : List Val) else []) = []
    by_cases ht : pyTruthy (Val.list xs)
    · rw [if_pos ht]
    · rw [if_neg ht]

/-- Witness for C6's amended statement: its decoding clauses at concrete
inputs and both merge paths on a concrete record. -/
theorem C6_provenance_decoding_amended_witness :
    merge_logic.parse_sources_json
        (Val.str "[\x7b\"source_system\": \"sap\", \"source_file\": null\x7d]") =
      merge_logic.cleanList
        [Val.dict [("source_system", Val.str "sap"), ("source_file", Val.none)]] ∧
    merge_logic.parse_sources_json (Val.str "corrupt!") =
      [Val.dict [("raw", Val.str "corrupt!")]] ∧
    (∃ m, merge_logic.merge_db_with_user
        (some [("part_number", Val.str "A1"), ("sources", Val.str "corrupt!")])
        [[("source_file", Val.str "u.xlsx")]] = some m ∧
      pyGet m "sources" = some (Val.str (dumps (merge_logic.clean_for_json
        (Val.list (merge_logic.parse_sources_json
            (pyGetD ((some [("part_number", Val.str "A1"),
                ("sources", Val.str "corrupt!")] : Option Row).getD [])
              "sources" Val.none)
          ++ [[("source_file", Val.str "u.xlsx")]].map merge_logic.userEntry)))))) ∧
    pyGet (user_stage2.merge_db_and_user
        (some [("part_number", Val.str "A1"), ("sources", Val.str "corrupt!")])
        [[("source_file", Val.str "u.xlsx")]]) "sources" =
      some (Val.str (dumps (Val.list
        (user_stage2.decodeOldSources
            [("part_number", Val.str "A1"), ("sources", Val.str "corrupt!")]
          ++ [[("source_file", Val.str "u.xlsx")]].map user_stage2.stage2Entry)))) := by
  refine ⟨?_, ?_, ?_, ?_⟩
  · exact C6_provenance_decoding_amended.2.1
      "[\x7b\"source_system\": \"sap\", \"source_file\": null\x7d]"
      [Val.dict [("source_system", Val.str "sap"), ("source_file", Val.none)]]
      (by rfl) (by rfl)
  · exact C6_provenance_decoding_amended.2.2.1 "corrupt!" (by rfl) (by rfl)
  · exact C6_provenance_decoding_amended.2.2.2.1
      (some [("part_number", Val.str "A1"), ("sources", Val.str "corrupt!")])
      [[("source_file", Val.str "u.xlsx")]] [("source_file", Val.str "u.xlsx")]
      (by rfl)
  · refine C6_provenance_decoding_amended.2.2.2.2.1
      [("part_number", Val.str "A1"), ("sources", Val.str "corrupt!")]
      [[("source_file", Val.str "u.xlsx")]] ?_
    intro u hu p hp hk
    rw [List.mem_singleton.mp hu] at hp
    rw [List.mem_singleton.mp hp] at hk
    exact absurd hk (by decide)

/-! ### Claim C9: required-column guarantee of the cleansing pipeline -/

theorem getCol_setColVals_eq (t : Table) (c : String) (vs : List Val) :
    getCol (setColVals t c vs) c = some vs := by
  show alookup (setColList t.cols c vs) c = some vs
  induction t.cols with
  | nil => simp [setColList, alookup]
  | cons kv rest ih =>
    by_cases h : kv.1 = c
    · simp [setColList, alookup, h]
    · simp [setColList, alookup, h, ih]

theorem getCol_setColVals_ne (t : Table) (c c' : String) (vs : List Val)
    (h : c' ≠ c) :
    getCol (setColVals t c vs) c' = getCol t c' := by
  show alookup (setColList t.cols c vs) c' = alookup t.cols c'
  induction t.cols with
  | nil =>
    simp only [setColList, alookup]
    rw [if_neg (fun e => h e.symm)]
  | cons kv rest ih =>
    by_cases hk : kv.1 = c
    · simp [setColList, alookup, hk, Ne.symm h]
    · simp [setColList, alookup, hk, ih]

theorem alookup_cons (kv : String × List Val) (rest : List (String × List Val))
    (c : String) :
    alookup (kv :: rest) c = if kv.1 = c then some kv.2 else alookup rest c := rfl

theorem alookup_rename_none (cols : List (String × List Val)) (a b c : String)
    (hb : c ≠ b) (h : alookup cols c = Option.none) :
    alookup (cols.map (fun kv => if kv.1 = a then (b, kv.2) else kv)) c
      = Option.none := by
  induction cols with
  | nil => rfl
  | cons kv rest ih =>
    rw [alookup_cons] at h
    have hkv : ¬kv.1 = c := by
      intro e
      rw [if_pos e] at h
      cases h
    rw [if_neg hkv] at h
    show alookup ((if kv.1 = a then (b, kv.2) else kv) :: _) c = Option.none
    by_cases ha : kv.1 = a
    · rw [if_pos ha, alookup_cons, if_neg (fun e : b = c => hb e.symm)]
      exact ih h
    · rw [if_neg ha, alookup_cons, if_neg hkv]
      exact ih h

theorem getCol_renameCol_none (t : Table) (a b c : String) (hb : c ≠ b)
    (h : getCol t c = Option.none) :
    getCol (renameCol t a b) c = Option.none :=
  alookup_rename_none t.cols a b c hb h

theorem alookup_filter_none (cols : List (String × List Val)) (a c : String)
    (h : alookup cols c = Option.none) :
    alookup (cols.filter (fun kv => !(kv.1 == a))) c = Option.none := by
  induction cols with
  | nil => rfl
  | cons kv rest ih =>
    rw [alookup_cons] at h
    have hkv : ¬kv.1 = c := by
      intro e
      rw [if_pos e] at h
      cases h
    rw [if_neg hkv] at h
    rw [List.filter_cons]
    by_cases hf : (!(kv.1 == a)) = true
    · rw [if_pos hf, alookup_cons, if_neg hkv]
      exact ih h
    · rw [if_neg hf]
      exact ih h

theorem getCol_dropCol_none (t : Table) (a c : String)
    (h : getCol t c = Option.none) :
    getCol (dropCol t a) c = Option.none :=
  alookup_filter_none t.cols a c h

theorem alookup_none_of_forall (cols : List (String × List Val)) (c : String)
    (h : ∀ kv ∈ cols, kv.1 ≠ c) : alookup cols c = Option.none := by
  induction cols with
  | nil => rfl
  | cons kv rest ih =>
    rw [alookup_cons, if_neg (h kv (List.mem_cons_self kv rest))]
    exact ih (fun q hq => h q (List.mem_cons_of_mem kv hq))

theorem colExists_false_of_forall (t : Table) (c : String)
    (h : ∀ kv ∈ t.cols, kv.1 ≠ c) : colExists t c = false := by
  show (getCol t c).isSome = false
  rw [show getCol t c = alookup t.cols c from rfl, alookup_none_of_forall t.cols c h]
  rfl

theorem colExists_none_iff (t : Table) (c : String) :
    colExists t c = false ↔ getCol t c = Option.none := by
  unfold colExists
  cases getCol t c <;> simp

theorem addToGroups_keys (g : List (String × List String)) (k o c : String)
    (hk : k ≠ c) (hg : ∀ e ∈ g, e.1 ≠ c) :
    ∀ e ∈ cleansing.addToGroups g k o, e.1 ≠ c := by
  induction g with
  | nil =>
    intro e he
    rw [show cleansing.addToGroups [] k o = [(k, [o])] from rfl,
        List.mem_singleton] at he
    rw [he]
    exact hk
  | cons kv rest ih =>
    obtain ⟨k', vs⟩ := kv
    intro e he
    rw [show cleansing.addToGroups ((k', vs) :: rest) k o =
        (if k' = k then (k', vs ++ [o]) :: rest
         else (k', vs) :: cleansing.addToGroups rest k o) from rfl] at he
    by_cases hkk : k' = k
    · rw [if_pos hkk] at he
      rcases List.mem_cons.mp he with rfl | hrest
      · exact hg (k', vs) (List.mem_cons_self _ _)
      · exact hg e (List.mem_cons_of_mem _ hrest)
    · rw [if_neg hkk] at he
      rcases List.mem_cons.mp he with rfl | hrest
      · exact hg (k', vs) (List.mem_cons_self _ _)
      · exact ih (fun q hq => hg q (List.mem_cons_of_mem _ hq)) e hrest

/-- Every canonical name in the groups is the canonicalization of some
original column. -/
theorem buildGroups_keys_ne (origCols : List String) (c : String) :
    ∀ g : List (String × List String),
      (∀ col ∈ origCols, cleansing.canonicalOf col ≠ c) →
      (∀ e ∈ g, e.1 ≠ c) →
      ∀ e ∈ origCols.foldl
          (fun g oc => cleansing.addToGroups g (cleansing.canonicalOf oc) oc) g,
        e.1 ≠ c := by
  induction origCols with
  | nil => intro g _ hg; exact hg
  | cons oc rest ih =>
    intro g hcols hg
    exact ih _ (fun q hq => hcols q (List.mem_cons_of_mem oc hq))
      (addToGroups_keys g _ oc c (hcols oc (List.mem_cons_self oc rest)) hg)

theorem mergeGroupStep_absent (nt : Table) (c' canonical c : String)
    (hcanon : canonical ≠ c) (h : getCol nt c = Option.none) :
    getCol (cleansing.mergeGroupStep nt c' canonical) c = Option.none := by
  unfold cleansing.mergeGroupStep
  rw [getCol_setColVals_ne _ _ _ _ (fun e => hcanon e.symm)]
  exact h

theorem mergeSteps_absent (cs : List String) (canonical c : String)
    (hcanon : canonical ≠ c) :
    ∀ nt : Table, getCol nt c = Option.none →
      getCol (cs.foldl (fun nt c0 => cleansing.mergeGroupStep nt c0 canonical) nt) c
        = Option.none := by
  induction cs with
  | nil => intro nt h; exact h
  | cons c0 cs' ih =>
    intro nt h
    exact ih _ (mergeGroupStep_absent nt c0 canonical c hcanon h)

theorem dropSteps_absent (cs : List String) (canonical c : String) :
    ∀ nt : Table, getCol nt c = Option.none →
      getCol (cs.foldl
        (fun nt c0 => if c0 ≠ canonical && colExists nt c0 then dropCol nt c0 else nt)
        nt) c = Option.none := by
  induction cs with
  | nil => intro nt h; exact h
  | cons c0 cs' ih =>
    intro nt h
    refine ih _ ?_
    show getCol (if c0 ≠ canonical && colExists nt c0 then dropCol nt c0 else nt) c
      = Option.none
    by_cases hd : (c0 ≠ canonical && colExists nt c0) = true
    · rw [if_pos hd]
      exact getCol_dropCol_none nt c0 c h
    · rw [if_neg hd]
      exact h

/-- The whole group fold of `normalize_and_merge_columns` never creates a
column named `c` when no group's canonical name is `c`. -/
theorem groupsFold_absent (gs : List (String × List String)) (c : String) :
    (∀ g ∈ gs, g.1 ≠ c) →
    ∀ nt : Table, getCol nt c = Option.none →
      getCol (gs.foldl
        (fun nt g =>
          match g.2 with
          | [c0] => if c0 ≠ g.1 then renameCol nt c0 g.1 else nt
          | cs =>
            let nt := setColScalarNone nt g.1
            let nt := cs.foldl (fun nt c0 => cleansing.mergeGroupStep nt c0 g.1) nt
            cs.foldl
              (fun nt c0 => if c0 ≠ g.1 && colExists nt c0 then dropCol nt c0 else nt)
              nt)
        nt) c = Option.none := by
  induction gs with
  | nil => intro _ nt h; exact h
  | cons g rest ih =>
    intro hgs nt h
    have hg1 : g.1 ≠ c := hgs g (List.mem_cons_self g rest)
    refine ih (fun q hq => hgs q (List.mem_cons_of_mem g hq)) _ ?_
    obtain ⟨gk, gcols⟩ := g
    cases gcols with
    | nil =>
      show getCol (setColScalarNone nt gk) c = Option.none
      exact (getCol_setColVals_ne _ _ _ _ (fun e => hg1 e.symm)).trans h
    | cons c0 cs' =>
      cases cs' with
      | nil =>
        show getCol (if c0 ≠ gk then renameCol nt c0 gk else nt) c = Option.none
        by_cases hr : (c0 ≠ gk : Prop)
        · rw [if_pos hr]
          exact getCol_renameCol_none nt c0 gk c (fun e => hg1 e.symm) h
        · rw [if_neg hr]
          exact h
      | cons c1 cs'' =>
        show getCol ((c0 :: c1 :: cs'').foldl
            (fun nt c2 => if c2 ≠ gk && colExists nt c2 then dropCol nt c2 else nt)
            ((c0 :: c1 :: cs'').foldl
              (fun nt c2 => cleansing.mergeGroupStep nt c2 gk)
              (setColScalarNone nt gk))) c = Option.none
        apply dropSteps_absent _ gk c
        apply mergeSteps_absent _ gk c hg1
        exact (getCol_setColVals_ne _ _ _ _ (fun e => hg1 e.symm)).trans h

theorem alookup_mapval_none (cols : List (String × List Val))
    (f : List Val → List Val) (c : String)
    (h : alookup cols c = Option.none) :
    alookup (cols.map (fun kv => (kv.1, f kv.2))) c = Option.none := by
  induction cols with
  | nil => rfl
  | cons kv rest ih =>
    rw [alookup_cons] at h
    have hkv : ¬kv.1 = c := by
      intro e
      rw [if_pos e] at h
      cases h
    rw [if_neg hkv] at h
    show (if kv.1 = c then some (f kv.2) else _) = Option.none
    rw [if_neg hkv]
    exact ih h

theorem basic_cleaning_absent (t : Table) (c : String)
    (h : getCol t c = Option.none) :
    getCol (cleansing.basic_cleaning t) c = Option.none :=
  alookup_mapval_none t.cols (fun vs => vs.map cleansing.clean_str) c h

theorem dimsApply_other (t : Table) (c : String) (h : c ≠ "dimensions") :
    getCol (cleansing.dimsApply t) c = getCol t c :=
  getCol_setColVals_ne _ _ _ _ h

theorem ensure_dimensions_other (t : Table) (c : String) (h : c ≠ "dimensions") :
    getCol (cleansing.ensure_dimensions t) c = getCol t c := by
  unfold cleansing.ensure_dimensions
  rw [dimsApply_other _ _ h]
  by_cases he : colExists t "dimensions" = true
  · rw [if_pos he]
  · rw [if_neg he]
    exact getCol_setColVals_ne _ _ _ _ h

theorem ensureMaster_other (t : Table) (c : String) (h : c ≠ "category_master") :
    getCol (cleansing.ensureMaster t) c = getCol t c := by
  unfold cleansing.ensureMaster
  by_cases he : colExists t "category_master" = true
  · rw [if_pos he]
  · rw [if_neg he]
    exact getCol_setColVals_ne _ _ _ _ h

theorem ensure_category_other (t : Table) (c : String)
    (h1 : c ≠ "category_raw") (h2 : c ≠ "category_master") :
    getCol (cleansing.ensure_category_columns t) c = getCol t c := by
  unfold cleansing.ensure_category_columns
  rw [ensureMaster_other _ _ h2]
  by_cases he : colExists t "category_raw" = true
  · rw [if_pos he]
  · rw [if_neg he]
    exact getCol_setColVals_ne _ _ _ _ h1

theorem ensure_core_pres (cols : List String) :
    ∀ (t : Table) (c : String) (vs : List Val), getCol t c = some vs →
      getCol (cols.foldl
        (fun t c => if colExists t c then t else setColScalarNone t c) t) c
        = some vs := by
  induction cols with
  | nil => intro t c vs h; exact h
  | cons x xs ih =>
    intro t c vs h
    refine ih _ c vs ?_
    show getCol (if colExists t x then t else setColScalarNone t x) c = some vs
    by_cases he : colExists t x = true
    · rw [if_pos he]; exact h
    · rw [if_neg he]
      have hx : c ≠ x := by
        intro e
        subst e
        rw [Bool.not_eq_true, colExists_none_iff] at he
        rw [he] at h
        cases h
      exact (getCol_setColVals_ne _ _ _ _ hx).trans h

theorem ensure_core_adds (cols : List String) :
    ∀ (t : Table) (c : String), c ∈ cols → getCol t c = Option.none →
      ∃ n, getCol (cols.foldl
        (fun t c => if colExists t c then t else setColScalarNone t c) t) c
        = some (List.replicate n Val.none) := by
  induction cols with
  | nil => intro t c hc _; cases hc
  | cons x xs ih =>
    intro t c hc h0
    by_cases hx : x = c
    · subst hx
      have he : colExists t x = false := (colExists_none_iff t x).mpr h0
      show ∃ n, getCol (xs.foldl _
        (if colExists t x then t else setColScalarNone t x)) x = _
      rw [if_neg (by simp [he])]
      exact ⟨t.nrows, ensure_core_pres xs _ x _ (getCol_setColVals_eq t x _)⟩
    · have hcx : c ∈ xs := by
        rcases List.mem_cons.mp hc with e | hh
        · exact absurd e.symm hx
        · exact hh
      refine ih _ c hcx ?_
      show getCol (if colExists t x then t else setColScalarNone t x) c = Option.none
      by_cases he : colExists t x = true
      · rw [if_pos he]; exact h0
      · rw [if_neg he]
        exact (getCol_setColVals_ne _ _ _ _ (fun e => hx e.symm)).trans h0

theorem ensure_core_exists (cols : List String) (t : Table) (c : String)
    (hc : c ∈ cols) :
    colExists (cols.foldl
      (fun t c => if colExists t c then t else setColScalarNone t c) t) c = true := by
  cases h : getCol t c with
  | some vs =>
    show (getCol _ _).isSome = true
    rw [ensure_core_pres cols t c vs h]
    rfl
  | none =>
    obtain ⟨n, hn⟩ := ensure_core_adds cols t c hc h
    show (getCol _ _).isSome = true
    rw [hn]
    rfl

/-- Claim C9 (corrected), counterexample: (a) on an empty batch (zero
rows), `cleanup_pipeline` short-circuits to an empty frame with NO columns
— `part_number` et al. are absent; (b) a `dimensions` column absent from
the input is not null-filled: it is inferred from `description`. -/
theorem C9_required_columns_counterexample :
    colExists (cleansing.cleanup_pipeline (some (Table.mk 0 [("description", [])])))
      "part_number" = false ∧
    getCol (cleansing.cleanup_pipeline (some (Table.mk 1
        [("part_number", [Val.str "A1"]),
         ("description", [Val.str "10x20 mm bracket"])])))
      "dimensions" = some [Val.str "10x20 mm"] := by
  exact ⟨rfl, rfl⟩

theorem core_fields_raw_null (U : Table) (h3 : getCol U "category_raw" = Option.none)
    (vs : List Val)
    (hvs : getCol (cleansing.ensure_core_fields (cleansing.ensure_category_columns U))
      "category_raw" = some vs) :
    ∀ v ∈ vs, v = Val.none := by
  have h4 : getCol (cleansing.ensure_category_columns U) "category_raw" =
      some (List.replicate U.nrows Val.none) := by
    unfold cleansing.ensure_category_columns
    rw [ensureMaster_other _ _ (by decide),
        if_neg (by simp [(colExists_none_iff _ _).mpr h3])]
    exact getCol_setColVals_eq _ _ _
  have h6 : getCol (cleansing.ensure_core_fields
      (cleansing.ensure_category_columns U)) "category_raw" =
      some (List.replicate U.nrows Val.none) :=
    ensure_core_pres cleansing.need_cols _ "category_raw" _ h4
  rw [hvs] at h6
  injection h6 with h6
  intro v hv
  rw [h6] at hv
  exact List.eq_of_mem_replicate hv

theorem core_fields_other_null (U : Table) (c : String)
    (hcr : c ≠ "category_raw") (hcm : c ≠ "category_master")
    (hneed : c ∈ cleansing.need_cols)
    (h3 : getCol U c = Option.none) (vs : List Val)
    (hvs : getCol (cleansing.ensure_core_fields (cleansing.ensure_category_columns U)) c
      = some vs) :
    ∀ v ∈ vs, v = Val.none := by
  have h4 : getCol (cleansing.ensure_category_columns U) c = Option.none := by
    rw [ensure_category_other _ _ hcr hcm]
    exact h3
  obtain ⟨n, hn⟩ := ensure_core_adds cleansing.need_cols _ c hneed h4
  have h6 : getCol (cleansing.ensure_core_fields
      (cleansing.ensure_category_columns U)) c = some (List.replicate n Val.none) := hn
  rw [hvs] at h6
  injection h6 with h6
  intro v hv
  rw [h6] at hv
  exact List.eq_of_mem_replicate hv

set_option maxHeartbeats 1600000 in
/-- Claim C9 (amended): for every input batch with at least one row and
one column, the cleansing pipeline's output contains all nine canonical
columns; and each of the seven columns other than `dimensions` and
`category_master`, when no input column canonicalizes to it, is null at
every row (`dimensions` may instead be inferred from `description`, and
`category_master` copies `category_raw`). -/
theorem C9_required_columns_amended (t : Table)
    (hrows : t.nrows ≠ 0) (hcols : t.cols ≠ []) :
    (∀ c ∈ cleansing.need_cols,
      colExists (cleansing.cleanup_pipeline (some t)) c = true) ∧
    (∀ c ∈ ["part_number", "description", "material", "category_raw", "cost",
            "currency", "vendor_name"],
      (∀ col ∈ t.names, cleansing.canonicalOf col ≠ c) →
      ∀ vs, getCol (cleansing.cleanup_pipeline (some t)) c = some vs →
        ∀ v ∈ vs, v = Val.none) := by
  have hcond : (t.nrows == 0 || t.cols.isEmpty) = false := by
    rw [Bool.or_eq_false_iff]
    constructor
    · exact beq_eq_false_iff_ne.mpr hrows
    · cases hcs : t.cols with
      | nil => exact absurd hcs hcols
      | cons kv rest => rfl
  have hbranch : cleansing.cleanup_pipeline (some t) =
      cleansing.ensure_core_fields (cleansing.ensure_category_columns
        (cleansing.ensure_dimensions (cleansing.basic_cleaning
          (cleansing.normalize_and_merge_columns t)))) := by
    unfold cleansing.cleanup_pipeline
    show (if (t.nrows == 0 || t.cols.isEmpty) = true then Table.mk 0 []
      else cleansing.ensure_core_fields (cleansing.ensure_category_columns
        (cleansing.ensure_dimensions (cleansing.basic_cleaning
          (cleansing.normalize_and_merge_columns t))))) =
      cleansing.ensure_core_fields (cleansing.ensure_category_columns
        (cleansing.ensure_dimensions (cleansing.basic_cleaning
          (cleansing.normalize_and_merge_columns t))))
    rw [if_neg (by simp [hcond])]
  constructor
  · intro c hc
    rw [hbranch]
    exact ensure_core_exists cleansing.need_cols _ c hc
  · intro c hc hcanon vs hvs v hv
    simp only [List.mem_cons, List.mem_singleton, List.not_mem_nil, or_false] at hc
    have hdim : c ≠ "dimensions" := by
      rcases hc with rfl|rfl|rfl|rfl|rfl|rfl|rfl <;> decide
    have hcm : c ≠ "category_master" := by
      rcases hc with rfl|rfl|rfl|rfl|rfl|rfl|rfl <;> decide
    have hneed : c ∈ cleansing.need_cols := by
      rcases hc with rfl|rfl|rfl|rfl|rfl|rfl|rfl <;> decide
    have hidc : cleansing.canonicalOf c = c := by
      rcases hc with rfl|rfl|rfl|rfl|rfl|rfl|rfl <;> rfl
    have h0 : getCol t c = Option.none := by
      apply (colExists_none_iff t c).mp
      apply colExists_false_of_forall
      intro kv hkv e
      exact hcanon kv.1 (List.mem_map_of_mem Prod.fst hkv) (by rw [e, hidc])
    have h1 : getCol (cleansing.normalize_and_merge_columns t) c = Option.none := by
      unfold cleansing.normalize_and_merge_columns
      apply groupsFold_absent
      · intro g hg
        exact buildGroups_keys_ne t.names c [] hcanon (by intro e he; cases he) g hg
      · exact h0
    have h2 : getCol (cleansing.basic_cleaning
        (cleansing.normalize_and_merge_columns t)) c = Option.none :=
      basic_cleaning_absent _ c h1
    have h3 : getCol (cleansing.ensure_dimensions (cleansing.basic_cleaning
        (cleansing.normalize_and_merge_columns t))) c = Option.none := by
      rw [ensure_dimensions_other _ _ hdim]
      exact h2
    rw [hbranch] at hvs
    generalize hU : cleansing.ensure_dimensions (cleansing.basic_cleaning
      (cleansing.normalize_and_merge_columns t)) = U at h3 hvs
    by_cases hcr : c = "category_raw"
    · subst hcr
      exact core_fields_raw_null U h3 vs hvs v hv
    · exact core_fields_other_null U c hcr hcm hneed h3 vs hvs v hv

/-- Witness for C9's amended statement: a one-row batch carrying only
`material` gets `part_number` created and a null-filled `cost`. -/
theorem C9_required_columns_amended_witness :
    colExists (cleansing.cleanup_pipeline
      (some (Table.mk 1 [("material", [Val.str "steel"])]))) "part_number" = true ∧
    (∀ v ∈ ([Val.none] : List Val), v = Val.none) := by
  constructor
  · exact (C9_required_columns_amended (Table.mk 1 [("material", [Val.str "steel"])])
      (by decide) (by simp)).1 "part_number" (by decide)
  · exact (C9_required_columns_amended (Table.mk 1 [("material", [Val.str "steel"])])
      (by decide) (by simp)).2 "cost" (by decide) (by decide) [Val.none] (by rfl)
